import Mathlib

/-!
Shallow embedding of the session / checkpoint / hooks subsystem of the
repository (src/unnamed/part_011 "Session Manager" and src/unnamed/part_012
"Hooks Manager"), together with proofs of the specification claims.

Modelling conventions:
* Filesystem paths are lists of components (`Path := List String`); `join`
  becomes list append and `relative` becomes dropping the root prefix.
* The filesystem is a flat association list from paths to file data
  (`FS := List (Path × FileData)`); a write prepends an entry and a lookup
  takes the first match, so later writes shadow earlier ones.  Directories
  exist implicitly (`mkdirSync` is a no-op); `readdirSync` of a directory is
  the list of distinct first components of the stored paths below it, and
  recursive directory removal drops every entry below the directory.
* `JSON.stringify`/`JSON.parse` of the plain record types written by the code
  (`SessionState`, `CheckpointInfo`) are modelled as the identity: `FileData`
  stores the typed value, and reading a file of the wrong shape models a
  `JSON.parse` failure.
* `Date.now()` / `new Date().toISOString()` are modelled as explicit `Nat`
  instants passed in by the caller (ISO-8601 strings compare exactly like the
  instants they denote); random id generation is modelled by passing the
  generated id in.
* SHA-256 hashing and `statSync(..).size` are host primitives; they are taken
  as function parameters `hashFn`/`sizeFn` of the checkpoint operations (the
  code records them in metadata and never reads them back).
-/

namespace Monty

/-- A filesystem path, as its list of components. -/
abbrev Path := List String

/-! ## Data model (src/unnamed/part_011, interfaces SessionState /
CheckpointInfo / FileSnapshot) -/

/-- Source `FileSnapshot` interface: one backed-up file of a checkpoint.
`path` is the project-relative path. -/
structure FileSnapshot where
  path : Path
  hash : String
  size : Nat
  backed_up : Bool
deriving DecidableEq, Repr

/-- Source `CheckpointInfo` interface: metadata of one restorable snapshot. -/
structure CheckpointInfo where
  id : String
  created_at : Nat
  description : String
  feature_id : Option String
  files_snapshot : List FileSnapshot
  can_restore : Bool
deriving DecidableEq, Repr

/-- Session status union type:
`'active' | 'completed' | 'interrupted' | 'forked'`. -/
inductive SessionStatus where
  | active
  | completed
  | interrupted
  | forked
deriving DecidableEq, Repr

/-- Source `SessionState` interface: a resumable unit of work. -/
structure SessionState where
  session_id : String
  parent_session_id : Option String
  created_at : Nat
  last_active : Nat
  status : SessionStatus
  current_feature : Option String
  completed_features : List String
  failed_features : List String
  context_summary : String
  important_decisions : List String
  tools_initialized : List String
  mcp_servers_active : List String
  checkpoints : List CheckpointInfo
  current_checkpoint : Option String
deriving DecidableEq, Repr

/-- Contents of one file in the modelled filesystem.  `text` is raw file
content; `sess`/`ckpt` are the JSON serializations the code writes with
`JSON.stringify` (serialization of these plain records is modelled as the
identity). -/
inductive FileData where
  | text (s : String)
  | sess (st : SessionState)
  | ckpt (c : CheckpointInfo)
deriving DecidableEq, Repr

/-- The filesystem: a flat map from paths to file data.  Writes prepend, the
first matching entry wins. -/
abbrev FS := List (Path × FileData)

/-- Source `readFileSync`/`existsSync` backend: first entry stored at `p`. -/
def lookupFS : FS → Path → Option FileData
  | [], _ => none
  | (q, d) :: rest, p => if q = p then some d else lookupFS rest p

/-- Source `writeFileSync`: later writes shadow earlier ones. -/
def writeFS (fs : FS) (p : Path) (d : FileData) : FS := (p, d) :: fs

/-- Source `existsSync` on a file path. -/
def existsFS (fs : FS) (p : Path) : Bool := (lookupFS fs p).isSome

/-- Source `copyFileSync src dst`.  All reachable call sites guard the source's
existence (a directory walk result or an `existsSync` check), so the
missing-source case, which would throw in the source, is modelled as a
no-op. -/
def copyFile (fs : FS) (src dst : Path) : FS :=
  match lookupFS fs src with
  | some d => writeFS fs dst d
  | none => fs

@[simp] theorem lookupFS_nil (p : Path) : lookupFS [] p = none := rfl

@[simp] theorem lookupFS_cons (q : Path) (d : FileData) (fs : FS) (p : Path) :
    lookupFS ((q, d) :: fs) p = if q = p then some d else lookupFS fs p := rfl

@[simp] theorem lookupFS_write_self (fs : FS) (p : Path) (d : FileData) :
    lookupFS (writeFS fs p d) p = some d := by
  simp [writeFS]

theorem lookupFS_write_other (fs : FS) (p q : Path) (d : FileData) (h : p ≠ q) :
    lookupFS (writeFS fs p d) q = lookupFS fs q := by
  simp [writeFS, h]

theorem lookupFS_append (E fs : FS) (p : Path) :
    lookupFS (E ++ fs) p = ((lookupFS E p).orElse fun _ => lookupFS fs p) := by
  induction E with
  | nil => simp
  | cons e rest ih =>
    obtain ⟨q, d⟩ := e
    by_cases h : q = p <;> simp [h, ih]

theorem lookupFS_isSome_of_mem_keys (fs : FS) (p : Path) (h : p ∈ fs.map Prod.fst) :
    (lookupFS fs p).isSome := by
  induction fs with
  | nil => simp at h
  | cons e rest ih =>
    obtain ⟨q, d⟩ := e
    by_cases hq : q = p
    · simp [hq]
    · simp only [List.map_cons, List.mem_cons] at h
      rcases h with h | h
      · exact absurd h.symm hq
      · simp [hq, ih h]

/-! ## Session lifecycle (src/unnamed/part_011) -/

/-- Source `createSessionState(parentSessionId)`: fresh id and clock value are passed
in (the source draws them from `generateSessionId()` and `new Date()`). -/
def createSessionState (sid : String) (parentSessionId : Option String)
    (now : Nat) : SessionState :=
  { session_id := sid
    parent_session_id := parentSessionId
    created_at := now
    last_active := now
    status := .active
    current_feature := none
    completed_features := []
    failed_features := []
    context_summary := ""
    important_decisions := []
    tools_initialized := []
    mcp_servers_active := []
    checkpoints := []
    current_checkpoint := none }

/-- Source `saveSessionState(agentDir, state)`: refreshes `last_active`, writes the
current pointer `session_state.json` and the per-id history file.  The source
mutates `state` in place; the updated state is returned alongside the new
filesystem. -/
def saveSessionState (agentDir : Path) (state : SessionState) (now : Nat)
    (fs : FS) : SessionState × FS :=
  let state' := { state with last_active := now }
  let fs1 := writeFS fs (agentDir ++ ["session_state.json"]) (.sess state')
  let fs2 := writeFS fs1 (agentDir ++ ["sessions", state'.session_id ++ ".json"])
    (.sess state')
  (state', fs2)

/-- Source `loadSessionState(agentDir)`: `null` when absent or unparsable. -/
def loadSessionState (agentDir : Path) (fs : FS) : Option SessionState :=
  match lookupFS fs (agentDir ++ ["session_state.json"]) with
  | some (.sess st) => some st
  | _ => none

/-- Source `forkSession(agentDir, parentState)`: child copies completed features,
context summary, decisions and checkpoint references; parent is marked
`forked`; both are saved.  Returns (child, updated parent, filesystem). -/
def forkSession (agentDir : Path) (parentState : SessionState)
    (childSid : String) (now : Nat) (fs : FS) :
    SessionState × SessionState × FS :=
  let newState0 := createSessionState childSid (some parentState.session_id) now
  let newState := { newState0 with
    completed_features := parentState.completed_features
    context_summary := parentState.context_summary
    important_decisions := parentState.important_decisions
    checkpoints := parentState.checkpoints
    current_checkpoint := parentState.current_checkpoint }
  let parentForked := { parentState with status := .forked }
  let savedParent := saveSessionState agentDir parentForked now fs
  let savedChild := saveSessionState agentDir newState now savedParent.2
  (savedChild.1, savedParent.1, savedChild.2)

/-! ## Claim C2: fork parent/child invariant -/

/-- C2: for every parent session state, `forkSession` returns a child whose
`parent_session_id` is the parent's `session_id`, sets the returned parent's
status to `forked`, and the child's completed-features, important-decisions
and checkpoint lists are value copies of the parent's; the returned parent's
`completed_features` list is left untouched (in this pure embedding the copied
lists are independent values, so mutating the child's copy cannot change the
parent's). -/
theorem c2_fork_invariant (agentDir : Path) (parent : SessionState)
    (childSid : String) (now : Nat) (fs : FS) :
    (forkSession agentDir parent childSid now fs).1.parent_session_id
        = some parent.session_id
    ∧ (forkSession agentDir parent childSid now fs).2.1.status = .forked
    ∧ (forkSession agentDir parent childSid now fs).1.completed_features
        = parent.completed_features
    ∧ (forkSession agentDir parent childSid now fs).1.important_decisions
        = parent.important_decisions
    ∧ (forkSession agentDir parent childSid now fs).1.checkpoints
        = parent.checkpoints
    ∧ (forkSession agentDir parent childSid now fs).2.1.completed_features
        = parent.completed_features := by
  refine ⟨rfl, rfl, rfl, rfl, rfl, rfl⟩

/-! ## Claim C10: fork resets in-progress and failed work -/

/-- C10: regardless of the parent's fields, the child produced by
`forkSession` starts with `failed_features = []`, `current_feature = null`,
status `active`, and empty tool lists — only completed features, context
summary, decisions and checkpoint references are carried over. -/
theorem c10_fork_resets_progress (agentDir : Path) (parent : SessionState)
    (childSid : String) (now : Nat) (fs : FS) :
    (forkSession agentDir parent childSid now fs).1.failed_features = []
    ∧ (forkSession agentDir parent childSid now fs).1.current_feature = none
    ∧ (forkSession agentDir parent childSid now fs).1.status = .active
    ∧ (forkSession agentDir parent childSid now fs).1.tools_initialized = []
    ∧ (forkSession agentDir parent childSid now fs).1.mcp_servers_active = [] := by
  refine ⟨rfl, rfl, rfl, rfl, rfl⟩

/-! ## Claim C8: session save/load round trip -/

theorem sessions_key_ne_state_key (agentDir : Path) (f : String) :
    agentDir ++ ["sessions", f] ≠ agentDir ++ ["session_state.json"] := by
  intro h
  have h2 : (["sessions", f] : Path) = ["session_state.json"] :=
    List.append_cancel_left h
  simp at h2

/-- C8: loading after saving a freshly created state yields exactly the saved
state, which agrees with the created state on every field except
`last_active`, refreshed to the (monotone) clock value at save time, so the
loaded `last_active` is ≥ the original. -/
theorem c8_session_roundtrip (agentDir : Path) (sid : String)
    (parentSessionId : Option String) (fs : FS) (now1 now2 : Nat)
    (h : now1 ≤ now2) :
    loadSessionState agentDir
        (saveSessionState agentDir
          (createSessionState sid parentSessionId now1) now2 fs).2
      = some (saveSessionState agentDir
          (createSessionState sid parentSessionId now1) now2 fs).1
    ∧ (saveSessionState agentDir
          (createSessionState sid parentSessionId now1) now2 fs).1
      = { createSessionState sid parentSessionId now1 with last_active := now2 }
    ∧ (createSessionState sid parentSessionId now1).last_active
      ≤ (saveSessionState agentDir
          (createSessionState sid parentSessionId now1) now2 fs).1.last_active := by
  refine ⟨?_, rfl, h⟩
  unfold loadSessionState saveSessionState
  rw [lookupFS_write_other _ _ _ _ (sessions_key_ne_state_key agentDir _)]
  simp

/-- C8 witness: the round trip evaluated at a concrete session and clock. -/
theorem c8_session_roundtrip_witness :
    loadSessionState ["agent"]
        (saveSessionState ["agent"] (createSessionState "s1" none 3) 7 []).2
      = some (saveSessionState ["agent"]
          (createSessionState "s1" none 3) 7 []).1
    ∧ (saveSessionState ["agent"] (createSessionState "s1" none 3) 7 []).1
      = { createSessionState "s1" none 3 with last_active := 7 }
    ∧ (createSessionState "s1" none 3).last_active
      ≤ (saveSessionState ["agent"]
          (createSessionState "s1" none 3) 7 []).1.last_active :=
  c8_session_roundtrip ["agent"] "s1" none [] 3 7 (by decide)

/-! ## Hooks manager (src/unnamed/part_012)

A small backtracking matcher for the JavaScript regular expressions the
guards use (`RegExp.prototype.test`, i.e. unanchored search).  It supports
exactly the constructs appearing in the source patterns: literals, the `\s`
and `\w` classes and `[a-z]`, `.`, concatenation, alternation, `*`/`+`,
negative lookahead `(?! )` and the `$` end anchor.  Matching is
continuation-passing with a fuel bound on call depth; the fuel used by
`jsTest` is far above the depth any of the (short, star-bodies-consuming)
source patterns can reach on its input. -/

/-- JavaScript `\s` on the ASCII range (the commands under test are ASCII). -/
def jsSpace (c : Char) : Bool :=
  c = ' ' || c = '\t' || c = '\n' || c = '\r' || c = '\x0b' || c = '\x0c'

/-- JavaScript `\w`: `[A-Za-z0-9_]`. -/
def jsWord (c : Char) : Bool :=
  ('a' ≤ c && c ≤ 'z') || ('A' ≤ c && c ≤ 'Z') || ('0' ≤ c && c ≤ '9') || c = '_'

/-- JavaScript `.`: any character except a line terminator. -/
def jsDotChar (c : Char) : Bool :=
  !(c = '\n' || c = '\r' || c.val = 0x2028 || c.val = 0x2029)

/-- Regular-expression abstract syntax (the fragment used by the guards). -/
inductive RE where
  | eps
  | lit (c : Char)
  | cls (p : Char → Bool)
  | dot
  | cat (a b : RE)
  | alt (a b : RE)
  | star (a : RE)
  | nlk (a : RE)
  | eos

/-- Literal string as a regex. -/
def RE.str (s : String) : RE := s.data.foldr (fun c r => .cat (.lit c) r) .eps

/-- Source `r+`. -/
def RE.plus (r : RE) : RE := .cat r (.star r)

/-- Concatenation of a list of regexes. -/
def RE.seq (rs : List RE) : RE := rs.foldr .cat .eps

/-- Source `\s+`. -/
def ws1 : RE := RE.plus (.cls jsSpace)

/-- Source `\s*`. -/
def ws0 : RE := .star (.cls jsSpace)

/-- Source `.*`. -/
def anyStar : RE := .star .dot

/-- Backtracking matcher: `reM fuel r s k` holds when `r` matches a prefix of
`s` and the continuation `k` accepts the rest.  In a repetition the body must
consume input (every starred body in the source patterns does), mirroring the
JavaScript engine's prohibition of empty-width repetition loops. -/
def reM : Nat → RE → List Char → (List Char → Bool) → Bool
  | 0, _, _, _ => false
  | Nat.succ n, r, s, k =>
    match r with
    | .eps => k s
    | .lit c => match s with
      | [] => false
      | a :: t => a = c && k t
    | .cls p => match s with
      | [] => false
      | a :: t => p a && k t
    | .dot => match s with
      | [] => false
      | a :: t => jsDotChar a && k t
    | .cat r1 r2 => reM n r1 s (fun t => reM n r2 t k)
    | .alt r1 r2 => reM n r1 s k || reM n r2 s k
    | .star r1 =>
      k s || reM n r1 s (fun t => decide (t.length < s.length) && reM n (.star r1) t k)
    | .nlk r1 => !(reM n r1 s (fun _ => true)) && k s
    | .eos => s.isEmpty && k s

/-- Source `RegExp.prototype.test`: unanchored search for a match at any position. -/
def jsTest (r : RE) (s : String) : Bool :=
  s.data.tails.any fun t => reM ((s.data.length + 2) * 400) r t (fun _ => true)

/-- Source `hay.includes(needle)` on strings. -/
def containsSub (hay needle : String) : Bool :=
  hay.data.tails.any fun t => needle.data.isPrefixOf t

/-! ### Hook types -/

/-- Source `HookEventType` union. -/
inductive HookEventType where
  | PreToolUse
  | PostToolUse
  | PostToolUseFailure
  | UserPromptSubmit
  | Stop
  | SubagentStop
  | PreCompact
  | SessionStart
  | SessionEnd
deriving DecidableEq, Repr

/-- Source `HookAction` union. -/
inductive HookAction where
  | allow
  | deny
  | continue_
  | modify
deriving DecidableEq, Repr

/-- Source `tool_input` record; the guards only ever read string-valued fields
(`command`, `file_path`), so it is modelled as a string-to-string record. -/
abbrev ToolInput := List (String × String)

/-- Source `(record?.key as string) || ''`. -/
def getToolField (ti : Option ToolInput) (key : String) : String :=
  match ti with
  | none => ""
  | some fields =>
    match fields.lookup key with
    | some v => v
    | none => ""

/-- Source `HookInput` interface. -/
structure HookInput where
  hook_event_name : HookEventType
  tool_name : Option String := none
  tool_input : Option ToolInput := none
  session_id : Option String := none
  timestamp : Nat
deriving DecidableEq, Repr

/-- Source `HookResult` interface. -/
structure HookResult where
  action : HookAction
  reason : Option String := none
  modified_input : Option ToolInput := none
  inject_message : Option String := none
deriving DecidableEq, Repr

/-- Source `HookContext` interface. -/
structure HookContext where
  project_root : String
  agent_dir : String
  session_id : String
  feature_in_progress : Option String := none
deriving DecidableEq, Repr

/-- Source `HookFunction`: hooks may have side effects (audit writes), modelled by
threading an explicit state `σ`; a pure guard leaves the state unchanged. -/
def HookFunction (σ : Type) := HookInput → HookContext → σ → HookResult × σ

/-- Source `HookMatcher`: the tool-name pattern (string or `RegExp`) is embedded as
its compiled membership test. -/
structure HookMatcher (σ : Type) where
  matcher : String → Bool
  hooks : List (HookFunction σ)

/-- Source `HooksConfig` interface: per-event hook registration. -/
structure HooksConfig (σ : Type) where
  PreToolUse : Option (List (HookMatcher σ)) := none
  PostToolUse : Option (List (HookMatcher σ)) := none
  PostToolUseFailure : Option (List (HookMatcher σ)) := none
  UserPromptSubmit : Option (List (HookFunction σ)) := none
  Stop : Option (List (HookFunction σ)) := none
  SubagentStop : Option (List (HookFunction σ)) := none
  PreCompact : Option (List (HookFunction σ)) := none
  SessionStart : Option (List (HookFunction σ)) := none
  SessionEnd : Option (List (HookFunction σ)) := none

/-! ### Security guards -/

/-- The `dangerousPatterns` list, each paired with its `pattern.toString()`
as used in the denial reason.  The fork-bomb source `:(){ :|:& };:` parses in
JavaScript as the alternation of the literal `:(){ :` (with `()` an empty
group) and the literal `:& };:`. -/
def dangerousPatterns : List (RE × String) :=
  [ (.seq [.str "rm", ws1, .str "-rf", ws1, .lit '/', .nlk (.cls jsWord)],
      "/rm\\s+-rf\\s+\\/(?!\\w)/"),
    (.seq [.str "rm", ws1, .str "-rf", ws1, .str "~/"],
      "/rm\\s+-rf\\s+~\\//"),
    (.seq [.str "rm", ws1, .str "-rf", ws1, .str "$HOME"],
      "/rm\\s+-rf\\s+\\$HOME/"),
    (.seq [.lit '>', ws0, .str "/dev/sd", .cls (fun c => 'a' ≤ c && c ≤ 'z')],
      "/>\\s*\\/dev\\/sd[a-z]/"),
    (.str "mkfs.", "/mkfs\\./"),
    (.seq [.str "dd", ws1, .str "if=", anyStar, .str "of=/dev"],
      "/dd\\s+if=.*of=\\/dev/"),
    (.alt (.cat (.lit ':') (.cat .eps (.str "\x7b :"))) (.str ":& \x7d;:"),
      "/:()\x7b :|:& \x7d;:/"),
    (.seq [.str "wget", anyStar, .lit '|', ws0, .str "sh"],
      "/wget.*\\|\\s*sh/"),
    (.seq [.str "curl", anyStar, .lit '|', ws0, .str "sh"],
      "/curl.*\\|\\s*sh/"),
    (.seq [.str "chmod", ws1, .str "777", ws1, .lit '/'],
      "/chmod\\s+777\\s+\\//"),
    (.seq [.str "chown", ws1, .str "-R", ws1, anyStar, ws1, .lit '/'],
      "/chown\\s+-R\\s+.*\\s+\\//") ]

/-- The `systemPaths` list. -/
def systemPaths : List String :=
  ["/etc/", "/usr/", "/bin/", "/sbin/", "/boot/", "/sys/", "/proc/"]

/-- Source `blockDangerousCommands` guard (pure: the context is unused and it
performs no I/O). -/
def blockDangerousCommands (input : HookInput) (_ctx : HookContext) :
    HookResult :=
  if input.tool_name ≠ some "Bash" then { action := .continue_ }
  else
    let command := getToolField input.tool_input "command"
    match dangerousPatterns.find? (fun pr => jsTest pr.1 command) with
    | some pr =>
      { action := .deny
        reason := some ("Dangerous command blocked: matches pattern " ++ pr.2) }
    | none =>
      match systemPaths.find? (fun path =>
          containsSub command ("> " ++ path) || containsSub command ("rm " ++ path)) with
      | some path =>
        { action := .deny, reason := some ("Cannot modify system path: " ++ path) }
      | none => { action := .continue_ }

/-- Source `/git\s+push\s+.*(-f|--force)/`. -/
def reForcePush : RE :=
  .seq [.str "git", ws1, .str "push", ws1, anyStar, .alt (.str "-f") (.str "--force")]

/-- Source `/\s+(main|master)\s*$/`. -/
def reTrailingMain : RE :=
  .seq [ws1, .alt (.str "main") (.str "master"), ws0, .eos]

/-- Source `/origin\s+(main|master)/`. -/
def reOriginMain : RE :=
  .seq [.str "origin", ws1, .alt (.str "main") (.str "master")]

/-- Source `preventForcePush` guard. -/
def preventForcePush (input : HookInput) (_ctx : HookContext) : HookResult :=
  if input.tool_name ≠ some "Bash" then { action := .continue_ }
  else
    let command := getToolField input.tool_input "command"
    if jsTest reForcePush command then
      if jsTest reTrailingMain command || jsTest reOriginMain command then
        { action := .deny
          reason := some
            "Force push to main/master is blocked. Use a feature branch instead." }
      else { action := .continue_ }
    else { action := .continue_ }

/-! ### Hook runner -/

/-- The `Omit<HookInput, 'hook_event_name' | 'timestamp'>` argument of
`runHooks`. -/
structure HookInputBase where
  tool_name : Option String := none
  tool_input : Option ToolInput := none
  session_id : Option String := none
deriving DecidableEq, Repr

/-- Building `fullInput` from the event, the runner's clock and the base
input. -/
def mkFullInput (e : HookEventType) (now : Nat) (b : HookInputBase) : HookInput :=
  { hook_event_name := e
    tool_name := b.tool_name
    tool_input := b.tool_input
    session_id := b.session_id
    timestamp := now }

/-- Which events are dispatched through matchers. -/
def isToolEvent : HookEventType → Bool
  | .PreToolUse | .PostToolUse | .PostToolUseFailure => true
  | _ => false

/-- Source `config[event]` for the matcher-dispatched events. -/
def eventMatchers {σ : Type} (e : HookEventType) (cfg : HooksConfig σ) :
    List (HookMatcher σ) :=
  match e with
  | .PreToolUse => cfg.PreToolUse.getD []
  | .PostToolUse => cfg.PostToolUse.getD []
  | .PostToolUseFailure => cfg.PostToolUseFailure.getD []
  | _ => []

/-- Source `config[event]` for the remaining events. -/
def eventPlainHooks {σ : Type} (e : HookEventType) (cfg : HooksConfig σ) :
    List (HookFunction σ) :=
  match e with
  | .UserPromptSubmit => cfg.UserPromptSubmit.getD []
  | .Stop => cfg.Stop.getD []
  | .SubagentStop => cfg.SubagentStop.getD []
  | .PreCompact => cfg.PreCompact.getD []
  | .SessionStart => cfg.SessionStart.getD []
  | .SessionEnd => cfg.SessionEnd.getD []
  | _ => []

/-- The inner loop over one matcher's hooks: `Sum.inl` is a short-circuiting
`deny`; `Sum.inr` is fall-through with the (possibly `modify`-updated) input
and the threaded state. -/
def runHookList {σ : Type} :
    List (HookFunction σ) → HookInput → HookContext → σ →
      (HookResult × σ) ⊕ (HookInput × σ)
  | [], i, _, s => .inr (i, s)
  | h :: rest, i, ctx, s =>
    let rs := h i ctx s
    if rs.1.action = .deny then .inl rs
    else
      let i' := match rs.1.action, rs.1.modified_input with
        | .modify, some m => { i with tool_input := some m }
        | _, _ => i
      runHookList rest i' ctx rs.2

/-- The outer loop over matchers.  `origName` is `input.tool_name || ''`,
read once from the runner's own argument, as in the source. -/
def runMatchers {σ : Type} (origName : String) :
    List (HookMatcher σ) → HookInput → HookContext → σ →
      (HookResult × σ) ⊕ (HookInput × σ)
  | [], i, _, s => .inr (i, s)
  | m :: rest, i, ctx, s =>
    if m.matcher origName then
      match runHookList m.hooks i ctx s with
      | .inl rs => .inl rs
      | .inr is => runMatchers origName rest is.1 ctx is.2
    else runMatchers origName rest i ctx s

/-- The loop for non-tool events: every hook runs, short-circuiting on
`deny`; `modify` results are not applied. -/
def runPlainHooks {σ : Type} :
    List (HookFunction σ) → HookInput → HookContext → σ → HookResult × σ
  | [], _, _, s => ({ action := .continue_ }, s)
  | h :: rest, i, ctx, s =>
    let rs := h i ctx s
    if rs.1.action = .deny then rs
    else runPlainHooks rest i ctx rs.2

/-- Source `runHooks(event, input, context, config)`. -/
def runHooks {σ : Type} (e : HookEventType) (b : HookInputBase)
    (ctx : HookContext) (cfg : HooksConfig σ) (now : Nat) (s : σ) :
    HookResult × σ :=
  let fullInput := mkFullInput e now b
  if isToolEvent e then
    match runMatchers (b.tool_name.getD "") (eventMatchers e cfg) fullInput ctx s with
    | .inl rs => rs
    | .inr is => ({ action := .continue_ }, is.2)
  else runPlainHooks (eventPlainHooks e cfg) fullInput ctx s

/-! ## Claim C1: first deny short-circuits runHooks -/

theorem runHookList_append {σ : Type} (A B : List (HookFunction σ))
    (i : HookInput) (ctx : HookContext) (s : σ) :
    runHookList (A ++ B) i ctx s =
      match runHookList A i ctx s with
      | .inl rs => .inl rs
      | .inr is => runHookList B is.1 ctx is.2 := by
  induction A generalizing i s with
  | nil => simp [runHookList]
  | cons h rest ih =>
    simp only [List.cons_append, runHookList]
    by_cases hd : (h i ctx s).1.action = .deny
    · simp [hd]
    · simp only [hd, if_false]
      exact ih _ _

theorem runMatchers_append {σ : Type} (origName : String)
    (A B : List (HookMatcher σ)) (i : HookInput) (ctx : HookContext) (s : σ) :
    runMatchers origName (A ++ B) i ctx s =
      match runMatchers origName A i ctx s with
      | .inl rs => .inl rs
      | .inr is => runMatchers origName B is.1 ctx is.2 := by
  induction A generalizing i s with
  | nil => simp [runMatchers]
  | cons m rest ih =>
    simp only [List.cons_append, runMatchers]
    by_cases hm : m.matcher origName
    · simp only [hm, if_true]
      cases hr : runHookList m.hooks i ctx s with
      | inl rs => simp
      | inr is => exact ih _ _
    · simp only [hm, if_false]
      exact ih _ _

/-- C1: for every hooks configuration, tool-scoped event and ordered guard
list, if the matchers before some matching matcher fall through without a
deny, the guards before `g` inside that matcher fall through without a deny,
and `g` returns a `deny` result, then `runHooks` returns exactly `g`'s result
and `g`'s post-state — the guards after `g` in the same matcher (`H2`) and
all later matchers (`M2`) are arbitrary and do not appear in the outcome, so
no guard after the first deny is invoked. -/
theorem c1_runHooks_first_deny_final {σ : Type} (e : HookEventType)
    (cfg : HooksConfig σ) (b : HookInputBase) (ctx : HookContext) (now : Nat)
    (s0 : σ) (M1 M2 : List (HookMatcher σ)) (pat : String → Bool)
    (H1 H2 : List (HookFunction σ)) (g : HookFunction σ)
    (i1 : HookInput) (s1 : σ) (i2 : HookInput) (s2 : σ)
    (r : HookResult) (s3 : σ)
    (he : isToolEvent e = true)
    (hcfg : eventMatchers e cfg
      = M1 ++ { matcher := pat, hooks := H1 ++ g :: H2 } :: M2)
    (h1 : runMatchers (b.tool_name.getD "") M1 (mkFullInput e now b) ctx s0
      = .inr (i1, s1))
    (hpat : pat (b.tool_name.getD "") = true)
    (h2 : runHookList H1 i1 ctx s1 = .inr (i2, s2))
    (h3 : g i2 ctx s2 = (r, s3))
    (hr : r.action = .deny) :
    runHooks e b ctx cfg now s0 = (r, s3) := by
  unfold runHooks
  rw [he, if_pos rfl, hcfg, runMatchers_append, h1]
  simp only [runMatchers, hpat, if_true]
  rw [runHookList_append, h2]
  simp [runHookList, h3, hr]

/-- Counter-instrumented guards for the C1 witness: the denying guard adds 1
to the counter, the guard after it would add 10. -/
def gDenyCount : HookFunction Nat := fun _ _ s =>
  ({ action := .deny, reason := some "blocked" }, s + 1)

/-- See `gDenyCount`. -/
def gContCount : HookFunction Nat := fun _ _ s =>
  ({ action := .continue_ }, s + 10)

/-- Configuration for the C1 witness: one Bash matcher with the ordered
guards `[gDenyCount, gContCount]`. -/
def c1WitnessCfg : HooksConfig Nat :=
  { PreToolUse := some [{ matcher := fun t => t == "Bash",
                          hooks := [gDenyCount, gContCount] }] }

/-- C1 witness: with ordered guards `[G1 ↦ deny, G2 ↦ continue]` for the Bash
matcher, `runHooks` returns G1's result and the counter shows only G1 ran
(G2 would have added 10). -/
theorem c1_runHooks_first_deny_final_witness :
    runHooks .PreToolUse { tool_name := some "Bash" }
        { project_root := "", agent_dir := "", session_id := "" }
        c1WitnessCfg 5 0
      = ({ action := .deny, reason := some "blocked" }, 1) :=
  c1_runHooks_first_deny_final .PreToolUse c1WitnessCfg
    { tool_name := some "Bash" }
    { project_root := "", agent_dir := "", session_id := "" } 5 0
    [] [] (fun t => t == "Bash") [] [gContCount] gDenyCount
    (mkFullInput .PreToolUse 5 { tool_name := some "Bash" }) 0
    (mkFullInput .PreToolUse 5 { tool_name := some "Bash" }) 0
    { action := .deny, reason := some "blocked" } 1
    rfl rfl rfl rfl rfl rfl rfl

/-! ## Claims C5 and C7: the concrete guard behaviours -/

/-- A `PreToolUse` Bash tool-use event for a given command, as the guards
receive it. -/
def bashEvent (cmd : String) : HookInput :=
  { hook_event_name := .PreToolUse
    tool_name := some "Bash"
    tool_input := some [("command", cmd)]
    timestamp := 0 }

/-- An arbitrary concrete context (both guards ignore it). -/
def someCtx : HookContext :=
  { project_root := "/home/me/project", agent_dir := "/home/me/project/.agent",
    session_id := "session-1" }

/-- C7: the dangerous-command guard denies `rm -rf /` and continues on
`rm -rf /home/me/project`. -/
theorem c7_blockDangerousCommands_eval :
    (blockDangerousCommands (bashEvent "rm -rf /") someCtx).action = .deny
    ∧ (blockDangerousCommands (bashEvent "rm -rf /home/me/project") someCtx).action
        = .continue_ := by
  constructor
  · decide
  · decide

/-- C5 counterexample: contrary to the claim, `git push --force` with no ref
in the command text is NOT denied — the guard returns `continue`, because it
only inspects the command string and has no knowledge of the current branch. -/
theorem c5_force_push_counterexample :
    (preventForcePush (bashEvent "git push --force") someCtx).action
      = .continue_ := by
  decide

/-- C5 (amended): the force-push guard denies a Bash `git push` carrying a
force flag when the command text itself names `main`/`master` — as a trailing
ref (`git push -f main`) or in the `origin main`/`origin master` form
(including `git push --force origin master`) — while `git push -f origin
feature/x` continues, and a force push whose text omits the ref
(`git push --force`) also continues: the guard never consults the current
branch. -/
theorem c5_force_push_amended :
    (preventForcePush (bashEvent "git push -f origin main") someCtx).action = .deny
    ∧ (preventForcePush (bashEvent "git push --force origin master") someCtx).action
        = .deny
    ∧ (preventForcePush (bashEvent "git push -f main") someCtx).action = .deny
    ∧ (preventForcePush (bashEvent "git push -f origin feature/x") someCtx).action
        = .continue_
    ∧ (preventForcePush (bashEvent "git push --force") someCtx).action
        = .continue_ := by
  refine ⟨by decide, by decide, by decide, by decide, by decide⟩

/-! ## Checkpoint manager (src/unnamed/part_011) -/

/-- Source `startsWith`, computed on the character lists. -/
def strStarts (s pre : String) : Bool := pre.data.isPrefixOf s.data

/-- Source `endsWith`, computed on the character lists. -/
def strEnds (s suf : String) : Bool := suf.data.isSuffixOf s.data

/-- Directory names the walk skips: hidden directories, `node_modules`,
`dist`.  (The filter applies to directories entered, not to the filename.) -/
def excludedDirName (s : String) : Bool :=
  strStarts s "." || s == "node_modules" || s == "dist"

/-- The extensions `findFilesRecursive` collects. -/
def srcExt (s : String) : Bool :=
  strEnds s ".ts" || strEnds s ".tsx" || strEnds s ".js" || strEnds s ".jsx"

/-- Whether a stored path is produced by the recursive walk of `dir`: it lies
strictly below `dir`, every intermediate directory component passes the
exclusion filter, and the filename has one of the collected extensions. -/
def isWalkFile (dir p : Path) : Bool :=
  dir.isPrefixOf p && decide (dir.length < p.length) &&
  ((p.drop dir.length).dropLast.all fun c => !excludedDirName c) &&
  (match (p.drop dir.length).getLast? with
   | some nm => srcExt nm
   | none => false)

/-- Source `findFilesRecursive(dir, extensions)`: in the flat path-map model the
recursive `readdirSync`/`statSync` walk denotes filtering the stored file
paths below `dir`.  (When nothing lies below `dir` the result is `[]`, which
also covers the `existsSync(srcDir)` guard at the call site.) -/
def findFilesRecursive (fs : FS) (dir : Path) : List Path :=
  (fs.map Prod.fst).filter fun p => isWalkFile dir p

/-- Source `calculateFileHash`: `''` for a missing file, otherwise the (abstract)
SHA-256-prefix of the content. -/
def calculateFileHash (hashFn : FileData → String) (fs : FS) (p : Path) :
    String :=
  match lookupFS fs p with
  | none => ""
  | some d => hashFn d

/-- Source `statSync(file).size` (call sites only reach existing files). -/
def statSize (sizeFn : FileData → Nat) (fs : FS) (p : Path) : Nat :=
  match lookupFS fs p with
  | some d => sizeFn d
  | none => 0

/-- The per-source-file loop of `createCheckpoint`: hash, stat, copy into the
checkpoint directory preserving the project-relative path, and record a
`FileSnapshot` with `backed_up = true`. -/
def backupSrcFiles (hashFn : FileData → String) (sizeFn : FileData → Nat)
    (projectRoot ckDir : Path) :
    List Path → FS → List FileSnapshot × FS
  | [], fs => ([], fs)
  | file :: rest, fs =>
    let rel := file.drop projectRoot.length
    let h := calculateFileHash hashFn fs file
    let sz := statSize sizeFn fs file
    let fs1 := copyFile fs file (ckDir ++ rel)
    let step := backupSrcFiles hashFn sizeFn projectRoot ckDir rest fs1
    (⟨rel, h, sz, true⟩ :: step.1, step.2)

/-- The config-file loop of `createCheckpoint` (over
`['package.json', 'tsconfig.json']`), guarded by `existsSync`. -/
def backupConfigFiles (hashFn : FileData → String) (sizeFn : FileData → Nat)
    (projectRoot ckDir : Path) :
    List String → FS → List FileSnapshot × FS
  | [], fs => ([], fs)
  | cf :: rest, fs =>
    if existsFS fs (projectRoot ++ [cf]) then
      let h := calculateFileHash hashFn fs (projectRoot ++ [cf])
      let sz := statSize sizeFn fs (projectRoot ++ [cf])
      let fs1 := copyFile fs (projectRoot ++ [cf]) (ckDir ++ [cf])
      let step := backupConfigFiles hashFn sizeFn projectRoot ckDir rest fs1
      (⟨[cf], h, sz, true⟩ :: step.1, step.2)
    else backupConfigFiles hashFn sizeFn projectRoot ckDir rest fs

/-- Source `createCheckpoint(agentDir, projectRoot, description, featureId)`: walks
`projectRoot/src`, backs up every discovered source file and the existing
top-level config files into `checkpoints/<id>/`, and writes the metadata as
`checkpoint.json` in the same directory.  The fresh id and clock value are
passed in (the source's unused `trackedPatterns` array is omitted). -/
def createCheckpoint (hashFn : FileData → String) (sizeFn : FileData → Nat)
    (agentDir projectRoot : Path) (description : String)
    (featureId : Option String) (ckptId : String) (now : Nat) (fs : FS) :
    CheckpointInfo × FS :=
  let ckDir := agentDir ++ ["checkpoints", ckptId]
  let srcFiles := findFilesRecursive fs (projectRoot ++ ["src"])
  let step1 := backupSrcFiles hashFn sizeFn projectRoot ckDir srcFiles fs
  let step2 := backupConfigFiles hashFn sizeFn projectRoot ckDir
    ["package.json", "tsconfig.json"] step1.2
  let ck : CheckpointInfo :=
    { id := ckptId
      created_at := now
      description := description
      feature_id := featureId
      files_snapshot := step1.1 ++ step2.1
      can_restore := true }
  (ck, writeFS step2.2 (ckDir ++ ["checkpoint.json"]) (.ckpt ck))

/-- The restore loop of `restoreCheckpoint`: every `backed_up` snapshot whose
backup copy exists is copied back to its original relative path (intermediate
`mkdirSync` is a no-op in the path model). -/
def restoreFiles (ckDir projectRoot : Path) :
    List FileSnapshot → FS → FS
  | [], fs => fs
  | f :: rest, fs =>
    let fs' :=
      if f.backed_up then
        if existsFS fs (ckDir ++ f.path) then
          copyFile fs (ckDir ++ f.path) (projectRoot ++ f.path)
        else fs
      else fs
    restoreFiles ckDir projectRoot rest fs'

/-- Source `restoreCheckpoint(agentDir, projectRoot, checkpointId)`: `false` when
`checkpoint.json` is missing, unparsable (a file of the wrong shape) or
`can_restore` is false; otherwise copies the backed-up files back and returns
`true`. -/
def restoreCheckpoint (agentDir projectRoot : Path) (checkpointId : String)
    (fs : FS) : Bool × FS :=
  let ckDir := agentDir ++ ["checkpoints", checkpointId]
  match lookupFS fs (ckDir ++ ["checkpoint.json"]) with
  | none => (false, fs)
  | some (.ckpt c) =>
    if c.can_restore then
      (true, restoreFiles ckDir projectRoot c.files_snapshot fs)
    else (false, fs)
  | some _ => (false, fs)

/-- First-occurrence deduplication (a directory listing shows each name
once). -/
def dedupFirst : List String → List String
  | [] => []
  | x :: xs => x :: (dedupFirst xs).filter fun y => y ≠ x

/-- Source `readdirSync(dir)` in the flat model: the distinct first components of
the stored paths strictly below `dir`. -/
def childNames (fs : FS) (dir : Path) : List String :=
  dedupFirst ((fs.map Prod.fst).filterMap fun p =>
    if dir.isPrefixOf p then (p.drop dir.length).head? else none)

/-- Parsing one `checkpoints/<d>/checkpoint.json` entry; `none` when absent
or corrupt. -/
def parseCk (fs : FS) (cksDir : Path) (d : String) : Option CheckpointInfo :=
  match lookupFS fs (cksDir ++ [d, "checkpoint.json"]) with
  | some (.ckpt c) => some c
  | _ => none

/-- Source `listCheckpoints(agentDir)`: parse `checkpoint.json` of every entry of
`checkpoints/` that has one (corrupt or missing metadata is skipped), sorted
by creation time, newest first (the JavaScript comparator `b - a`). -/
def listCheckpoints (agentDir : Path) (fs : FS) : List CheckpointInfo :=
  let cksDir := agentDir ++ ["checkpoints"]
  List.insertionSort (fun a b => b.created_at ≤ a.created_at)
    ((childNames fs cksDir).filterMap (parseCk fs cksDir))

/-- Source `removeDirectoryRecursive(dir)` denotes dropping every stored path below
the directory. -/
def removeDirRec (fs : FS) (dir : Path) : FS :=
  fs.filter fun e => !dir.isPrefixOf e.1

/-- Source `existsSync` on a directory in the flat model: some stored path lies
below it. -/
def existsDirFS (fs : FS) (dir : Path) : Bool :=
  (fs.map Prod.fst).any fun p => dir.isPrefixOf p

/-- The deletion loop of `cleanOldCheckpoints`: for each pruned checkpoint,
remove its whole directory (if it exists). -/
def deleteCkDirs (agentDir : Path) : List CheckpointInfo → FS → FS
  | [], fs => fs
  | c :: rest, fs =>
    let ckDir := agentDir ++ ["checkpoints", c.id]
    deleteCkDirs agentDir rest
      (if existsDirFS fs ckDir then removeDirRec fs ckDir else fs)

/-- Source `cleanOldCheckpoints(agentDir, keepCount)`: no-op when at most
`keepCount` checkpoints are listed, otherwise removes the whole directory of
every checkpoint beyond the `keepCount` most recent. -/
def cleanOldCheckpoints (agentDir : Path) (keepCount : Nat) (fs : FS) : FS :=
  let cks := listCheckpoints agentDir fs
  if cks.length ≤ keepCount then fs
  else deleteCkDirs agentDir (cks.drop keepCount) fs

/-! ### Path disjointness

The agent directory and the project root are distinct directories (neither is
nested in the other); under that standing assumption paths below the one are
never paths below the other. -/

theorem isPrefixOf_eq_true_iff (l₁ l₂ : Path) :
    l₁.isPrefixOf l₂ = true ↔ l₁ <+: l₂ :=
  List.isPrefixOf_iff_prefix

theorem append_ne_append_of_disjoint {A B : Path}
    (hAB : ¬A <+: B) (hBA : ¬B <+: A) (u v : Path) : A ++ u ≠ B ++ v := by
  intro h
  have hA : A <+: B ++ v := h ▸ List.prefix_append A u
  have hB : B <+: B ++ v := List.prefix_append B v
  rcases List.prefix_or_prefix_of_prefix hA hB with h1 | h1
  · exact hAB h1
  · exact hBA h1

/-! ## Claim C4: restore refuses missing metadata and non-restorable
checkpoints -/

/-- C4: `restoreCheckpoint` returns `false` (without throwing — the embedded
function is total and returns a boolean) both when `checkpoint.json` is
missing and when `can_restore` is false, and in both cases the filesystem —
in particular the project tree — is returned unchanged: no snapshot file is
copied back. -/
theorem c4_restore_rejects (agentDir projectRoot : Path) (cid : String)
    (fs : FS) :
    (lookupFS fs (agentDir ++ ["checkpoints", cid, "checkpoint.json"]) = none →
      restoreCheckpoint agentDir projectRoot cid fs = (false, fs))
    ∧ (∀ c : CheckpointInfo,
        lookupFS fs (agentDir ++ ["checkpoints", cid, "checkpoint.json"])
          = some (.ckpt c) →
        c.can_restore = false →
        restoreCheckpoint agentDir projectRoot cid fs = (false, fs)) := by
  constructor
  · intro h
    simp only [restoreCheckpoint, List.append_assoc, List.cons_append,
      List.nil_append]
    rw [h]
  · intro c hc hcr
    simp only [restoreCheckpoint, List.append_assoc, List.cons_append,
      List.nil_append]
    rw [hc]
    simp [hcr]

/-- A non-restorable checkpoint metadata value for the C4 witness. -/
def c4BadCk : CheckpointInfo :=
  { id := "k1", created_at := 0, description := "d", feature_id := none,
    files_snapshot := [⟨["src", "x.ts"], "h", 1, true⟩], can_restore := false }

/-- A filesystem holding only the non-restorable metadata, for the C4
witness. -/
def c4FS : FS := [(["a", "checkpoints", "k1", "checkpoint.json"], .ckpt c4BadCk)]

/-- C4 witness: a missing checkpoint and a `can_restore = false` checkpoint
both yield `false` and leave the filesystem untouched. -/
theorem c4_restore_rejects_witness :
    restoreCheckpoint ["a"] ["p"] "nope" c4FS = (false, c4FS)
    ∧ restoreCheckpoint ["a"] ["p"] "k1" c4FS = (false, c4FS) :=
  ⟨(c4_restore_rejects ["a"] ["p"] "nope" c4FS).1 (by decide),
   (c4_restore_rejects ["a"] ["p"] "k1" c4FS).2 c4BadCk (by decide) (by decide)⟩

/-! ## Claim C9: a missing backup is silently skipped and restore still
reports success -/

theorem restoreFiles_missing_backup (ckDir projectRoot : Path)
    (hdisj : ∀ u v : Path, ckDir ++ u ≠ projectRoot ++ v)
    (snaps : List FileSnapshot) (fs : FS) (r : Path)
    (hmiss : lookupFS fs (ckDir ++ r) = none) :
    lookupFS (restoreFiles ckDir projectRoot snaps fs) (projectRoot ++ r)
      = lookupFS fs (projectRoot ++ r)
    ∧ lookupFS (restoreFiles ckDir projectRoot snaps fs) (ckDir ++ r) = none := by
  induction snaps generalizing fs with
  | nil => exact ⟨rfl, hmiss⟩
  | cons f rest ih =>
    simp only [restoreFiles]
    by_cases hb : f.backed_up = true
    · by_cases hex : existsFS fs (ckDir ++ f.path) = true
      · have hval : ∃ d, lookupFS fs (ckDir ++ f.path) = some d := by
          simpa [existsFS, Option.isSome_iff_exists] using hex
        obtain ⟨d, hd⟩ := hval
        have hpath : f.path ≠ r := by
          intro hEq
          rw [hEq, hmiss] at hd
          exact Option.noConfusion hd
        have hw1 : (projectRoot ++ f.path) ≠ (projectRoot ++ r) := by
          intro hEq
          exact hpath (List.append_cancel_left hEq)
        have hw2 : (projectRoot ++ f.path) ≠ (ckDir ++ r) :=
          fun hEq => hdisj r f.path hEq.symm
        rw [if_pos hb, if_pos hex]
        simp only [copyFile, hd]
        have hmiss' : lookupFS (writeFS fs (projectRoot ++ f.path) d)
            (ckDir ++ r) = none := by
          rw [lookupFS_write_other _ _ _ _ hw2]; exact hmiss
        have H := ih (writeFS fs (projectRoot ++ f.path) d) hmiss'
        refine ⟨?_, H.2⟩
        rw [H.1, lookupFS_write_other _ _ _ _ hw1]
      · rw [if_pos hb, if_neg hex]
        exact ih fs hmiss
    · rw [if_neg hb]
      exact ih fs hmiss

/-- C9: when a restorable checkpoint's metadata lists a snapshot with
`backed_up = true` whose backup copy is absent from the checkpoint directory,
`restoreCheckpoint` silently skips that file — the project copy is left
exactly as it was — and still returns `true`: a partial restore is
indistinguishable from a complete one in the return value. -/
theorem c9_restore_skips_missing_backup (agentDir projectRoot : Path)
    (cid : String) (fs : FS) (c : CheckpointInfo) (snap : FileSnapshot)
    (hAP : ¬agentDir <+: projectRoot) (hPA : ¬projectRoot <+: agentDir)
    (hmeta : lookupFS fs (agentDir ++ ["checkpoints", cid, "checkpoint.json"])
      = some (.ckpt c))
    (hcr : c.can_restore = true)
    (_hs : snap ∈ c.files_snapshot)
    (_hb : snap.backed_up = true)
    (hmiss : lookupFS fs (agentDir ++ ["checkpoints", cid] ++ snap.path) = none) :
    (restoreCheckpoint agentDir projectRoot cid fs).1 = true
    ∧ lookupFS (restoreCheckpoint agentDir projectRoot cid fs).2
        (projectRoot ++ snap.path)
      = lookupFS fs (projectRoot ++ snap.path) := by
  have hdisj : ∀ u v : Path,
      (agentDir ++ ["checkpoints", cid]) ++ u ≠ projectRoot ++ v := by
    intro u v
    rw [List.append_assoc]
    exact append_ne_append_of_disjoint hAP hPA _ v
  have hmeta' : lookupFS fs
      (agentDir ++ ["checkpoints", cid] ++ ["checkpoint.json"])
      = some (.ckpt c) := by simpa using hmeta
  simp only [restoreCheckpoint]
  rw [hmeta']
  simp only [hcr, if_pos rfl]
  exact ⟨rfl,
    (restoreFiles_missing_backup _ projectRoot hdisj c.files_snapshot fs
      snap.path hmiss).1⟩

/-- Restorable metadata listing a backed-up snapshot whose backup file is
absent, for the C9 witness. -/
def c9Ck : CheckpointInfo :=
  { id := "k2", created_at := 0, description := "d", feature_id := none,
    files_snapshot := [⟨["src", "x.ts"], "h", 1, true⟩], can_restore := true }

/-- Filesystem for the C9 witness: the metadata is present but the backup
copy `checkpoints/k2/src/x.ts` is not; the live project file holds
`"live"`. -/
def c9FS : FS :=
  [(["a", "checkpoints", "k2", "checkpoint.json"], .ckpt c9Ck),
   (["p", "src", "x.ts"], .text "live")]

/-- C9 witness: restoring reports success and the live file is untouched. -/
theorem c9_restore_skips_missing_backup_witness :
    (restoreCheckpoint ["a"] ["p"] "k2" c9FS).1 = true
    ∧ lookupFS (restoreCheckpoint ["a"] ["p"] "k2" c9FS).2 ["p", "src", "x.ts"]
      = lookupFS c9FS ["p", "src", "x.ts"] := by
  have h := c9_restore_skips_missing_backup ["a"] ["p"] "k2" c9FS c9Ck
    ⟨["src", "x.ts"], "h", 1, true⟩ (by decide) (by decide) (by decide)
    (by decide) (by decide) (by decide) (by decide)
  simpa using h

/-! ## Claim C3: checkpoint round trip

Characterisations of `createCheckpoint` (what the checkpoint directory holds
afterwards and that nothing outside it changed) and of the restore loop on a
fully backed-up snapshot list. -/

theorem backupSrcFiles_spec (hashFn : FileData → String)
    (sizeFn : FileData → Nat) (projectRoot ckDir : Path) (files : List Path)
    (fs : FS)
    (hfiles : ∀ f ∈ files,
      projectRoot <+: f ∧ ¬ckDir <+: f ∧ (lookupFS fs f).isSome) :
    (∀ p : Path,
      (∀ s ∈ (backupSrcFiles hashFn sizeFn projectRoot ckDir files fs).1,
        p ≠ ckDir ++ s.path) →
      lookupFS (backupSrcFiles hashFn sizeFn projectRoot ckDir files fs).2 p
        = lookupFS fs p)
    ∧ (∀ s ∈ (backupSrcFiles hashFn sizeFn projectRoot ckDir files fs).1,
        lookupFS (backupSrcFiles hashFn sizeFn projectRoot ckDir files fs).2
            (ckDir ++ s.path)
          = lookupFS fs (projectRoot ++ s.path))
    ∧ (∀ s ∈ (backupSrcFiles hashFn sizeFn projectRoot ckDir files fs).1,
        s.backed_up = true ∧ ∃ f ∈ files, projectRoot ++ s.path = f) := by
  induction files generalizing fs with
  | nil => exact ⟨fun p _ => rfl, fun s hs => absurd hs (by simp [backupSrcFiles]),
      fun s hs => absurd hs (by simp [backupSrcFiles])⟩
  | cons f0 rest ih =>
    obtain ⟨hpre, hck, hsome⟩ := hfiles f0 (List.mem_cons_self f0 rest)
    obtain ⟨d, hd⟩ : ∃ d, lookupFS fs f0 = some d := by
      simpa [Option.isSome_iff_exists] using hsome
    have keyfact : projectRoot ++ f0.drop projectRoot.length = f0 :=
      List.prefix_iff_eq_append.mp hpre
    have hkeyne : ∀ g : Path, ¬ckDir <+: g →
        ckDir ++ f0.drop projectRoot.length ≠ g := by
      intro g hg hEq
      exact hg (hEq ▸ List.prefix_append ckDir _)
    have hfs1 : backupSrcFiles hashFn sizeFn projectRoot ckDir (f0 :: rest) fs
        = (⟨f0.drop projectRoot.length,
             calculateFileHash hashFn fs f0, statSize sizeFn fs f0, true⟩ ::
            (backupSrcFiles hashFn sizeFn projectRoot ckDir rest
              (writeFS fs (ckDir ++ f0.drop projectRoot.length) d)).1,
           (backupSrcFiles hashFn sizeFn projectRoot ckDir rest
              (writeFS fs (ckDir ++ f0.drop projectRoot.length) d)).2) := by
      simp [backupSrcFiles, copyFile, hd]
    set fs1 := writeFS fs (ckDir ++ f0.drop projectRoot.length) d with hfs1def
    have htail : ∀ f ∈ rest,
        projectRoot <+: f ∧ ¬ckDir <+: f ∧ (lookupFS fs1 f).isSome := by
      intro f hf
      obtain ⟨h1, h2, h3⟩ := hfiles f (List.mem_cons_of_mem _ hf)
      refine ⟨h1, h2, ?_⟩
      rw [hfs1def, lookupFS_write_other _ _ _ _ (hkeyne f h2)]
      exact h3
    obtain ⟨ihA, ihB, ihC⟩ := ih fs1 htail
    have hlook1 : ∀ g : Path, ¬ckDir <+: g → lookupFS fs1 g = lookupFS fs g := by
      intro g hg
      rw [hfs1def, lookupFS_write_other _ _ _ _ (hkeyne g hg)]
    refine ⟨?_, ?_, ?_⟩
    · intro p hp
      rw [hfs1]
      simp only
      have hphead : p ≠ ckDir ++ f0.drop projectRoot.length :=
        hp _ (by rw [hfs1]; exact List.mem_cons_self _ _)
      have hptail : ∀ s ∈ (backupSrcFiles hashFn sizeFn projectRoot ckDir rest fs1).1,
          p ≠ ckDir ++ s.path := by
        intro s hs
        exact hp s (by rw [hfs1]; exact List.mem_cons_of_mem _ hs)
      rw [ihA p hptail, hfs1def, lookupFS_write_other _ _ _ _ (Ne.symm hphead)]
    · intro s hs
      rw [hfs1] at hs
      simp only [List.mem_cons] at hs
      rcases hs with hs | hs
      · subst hs
        simp only
        rw [hfs1]
        simp only
        rw [keyfact, hd]
        by_cases hdup : ∃ s' ∈ (backupSrcFiles hashFn sizeFn projectRoot ckDir
            rest fs1).1, s'.path = f0.drop projectRoot.length
        · obtain ⟨s', hs', hps'⟩ := hdup
          have := ihB s' hs'
          rw [hps'] at this
          rw [this, keyfact, hlook1 f0 hck, hd]
        · push_neg at hdup
          have hav : ∀ s' ∈ (backupSrcFiles hashFn sizeFn projectRoot ckDir
              rest fs1).1, ckDir ++ f0.drop projectRoot.length ≠ ckDir ++ s'.path := by
            intro s' hs' hEq
            exact hdup s' hs' ((List.append_cancel_left hEq).symm)
          rw [ihA _ hav, hfs1def, lookupFS_write_self]
      · rw [hfs1]
        simp only
        obtain ⟨_, f, hf, hpf⟩ := ihC s hs
        obtain ⟨_, h2, _⟩ := hfiles f (List.mem_cons_of_mem _ hf)
        rw [ihB s hs, hpf, hlook1 f h2, ← hpf]
    · intro s hs
      rw [hfs1] at hs
      simp only [List.mem_cons] at hs
      rcases hs with hs | hs
      · subst hs
        exact ⟨rfl, f0, List.mem_cons_self _ _, keyfact⟩
      · obtain ⟨hb, f, hf, hpf⟩ := ihC s hs
        exact ⟨hb, f, List.mem_cons_of_mem _ hf, hpf⟩

theorem backupConfigFiles_spec (hashFn : FileData → String)
    (sizeFn : FileData → Nat) (projectRoot ckDir : Path) (names : List String)
    (fs : FS)
    (hnames : ∀ cf ∈ names, ¬ckDir <+: projectRoot ++ [cf]) :
    (∀ p : Path,
      (∀ s ∈ (backupConfigFiles hashFn sizeFn projectRoot ckDir names fs).1,
        p ≠ ckDir ++ s.path) →
      lookupFS (backupConfigFiles hashFn sizeFn projectRoot ckDir names fs).2 p
        = lookupFS fs p)
    ∧ (∀ s ∈ (backupConfigFiles hashFn sizeFn projectRoot ckDir names fs).1,
        lookupFS (backupConfigFiles hashFn sizeFn projectRoot ckDir names fs).2
            (ckDir ++ s.path)
          = lookupFS fs (projectRoot ++ s.path)
        ∧ (lookupFS fs (projectRoot ++ s.path)).isSome)
    ∧ (∀ s ∈ (backupConfigFiles hashFn sizeFn projectRoot ckDir names fs).1,
        s.backed_up = true ∧ ∃ cf ∈ names, s.path = [cf]) := by
  induction names generalizing fs with
  | nil => exact ⟨fun p _ => rfl,
      fun s hs => absurd hs (by simp [backupConfigFiles]),
      fun s hs => absurd hs (by simp [backupConfigFiles])⟩
  | cons cf0 rest ih =>
    have hck0 : ¬ckDir <+: projectRoot ++ [cf0] :=
      hnames cf0 (List.mem_cons_self cf0 rest)
    have hkeyne : ∀ g : Path, ¬ckDir <+: g → ckDir ++ [cf0] ≠ g := by
      intro g hg hEq
      exact hg (hEq ▸ List.prefix_append ckDir _)
    have htailnames : ∀ cf ∈ rest, ¬ckDir <+: projectRoot ++ [cf] :=
      fun cf hcf => hnames cf (List.mem_cons_of_mem _ hcf)
    by_cases hex : existsFS fs (projectRoot ++ [cf0]) = true
    · obtain ⟨d, hd⟩ : ∃ d, lookupFS fs (projectRoot ++ [cf0]) = some d := by
        simpa [existsFS, Option.isSome_iff_exists] using hex
      have hfs1 : backupConfigFiles hashFn sizeFn projectRoot ckDir
          (cf0 :: rest) fs
          = (⟨[cf0], calculateFileHash hashFn fs (projectRoot ++ [cf0]),
               statSize sizeFn fs (projectRoot ++ [cf0]), true⟩ ::
              (backupConfigFiles hashFn sizeFn projectRoot ckDir rest
                (writeFS fs (ckDir ++ [cf0]) d)).1,
             (backupConfigFiles hashFn sizeFn projectRoot ckDir rest
                (writeFS fs (ckDir ++ [cf0]) d)).2) := by
        simp [backupConfigFiles, hex, copyFile, hd]
      set fs1 := writeFS fs (ckDir ++ [cf0]) d with hfs1def
      obtain ⟨ihA, ihB, ihC⟩ := ih fs1 htailnames
      have hlook1 : ∀ g : Path, ¬ckDir <+: g →
          lookupFS fs1 g = lookupFS fs g := by
        intro g hg
        rw [hfs1def, lookupFS_write_other _ _ _ _ (hkeyne g hg)]
      refine ⟨?_, ?_, ?_⟩
      · intro p hp
        rw [hfs1]
        simp only
        have hphead : p ≠ ckDir ++ [cf0] :=
          hp _ (by rw [hfs1]; exact List.mem_cons_self _ _)
        have hptail : ∀ s ∈ (backupConfigFiles hashFn sizeFn projectRoot ckDir
            rest fs1).1, p ≠ ckDir ++ s.path := by
          intro s hs
          exact hp s (by rw [hfs1]; exact List.mem_cons_of_mem _ hs)
        rw [ihA p hptail, hfs1def, lookupFS_write_other _ _ _ _ (Ne.symm hphead)]
      · intro s hs
        rw [hfs1] at hs
        simp only [List.mem_cons] at hs
        rcases hs with hs | hs
        · subst hs
          simp only
          rw [hfs1]
          simp only
          rw [hd]
          refine ⟨?_, by simp [hd]⟩
          by_cases hdup : ∃ s' ∈ (backupConfigFiles hashFn sizeFn projectRoot
              ckDir rest fs1).1, s'.path = [cf0]
          · obtain ⟨s', hs', hps'⟩ := hdup
            have := (ihB s' hs').1
            rw [hps'] at this
            rw [this, hlook1 _ hck0, hd]
          · push_neg at hdup
            have hav : ∀ s' ∈ (backupConfigFiles hashFn sizeFn projectRoot
                ckDir rest fs1).1, ckDir ++ [cf0] ≠ ckDir ++ s'.path := by
              intro s' hs' hEq
              exact hdup s' hs' ((List.append_cancel_left hEq).symm)
            rw [ihA _ hav, hfs1def, lookupFS_write_self]
        · rw [hfs1]
          simp only
          obtain ⟨_, cf, hcf, hpf⟩ := ihC s hs
          have hckcf : ¬ckDir <+: projectRoot ++ s.path := by
            rw [hpf]; exact htailnames cf hcf
          obtain ⟨e1, e2⟩ := ihB s hs
          rw [e1, hlook1 _ hckcf]
          refine ⟨rfl, ?_⟩
          rw [hlook1 _ hckcf] at e2
          exact e2
      · intro s hs
        rw [hfs1] at hs
        simp only [List.mem_cons] at hs
        rcases hs with hs | hs
        · subst hs
          exact ⟨rfl, cf0, List.mem_cons_self _ _, rfl⟩
        · obtain ⟨hb, cf, hcf, hpf⟩ := ihC s hs
          exact ⟨hb, cf, List.mem_cons_of_mem _ hcf, hpf⟩
    · have hstep : backupConfigFiles hashFn sizeFn projectRoot ckDir
          (cf0 :: rest) fs
          = backupConfigFiles hashFn sizeFn projectRoot ckDir rest fs := by
        simp [backupConfigFiles, hex]
      rw [hstep]
      obtain ⟨ihA, ihB, ihC⟩ := ih fs htailnames
      refine ⟨ihA, ihB, ?_⟩
      intro s hs
      obtain ⟨hb, cf, hcf, hpf⟩ := ihC s hs
      exact ⟨hb, cf, List.mem_cons_of_mem _ hcf, hpf⟩

/-- What `createCheckpoint` guarantees: the returned metadata carries the
given id, time and `can_restore = true` and is stored at
`checkpoints/<id>/checkpoint.json`; every recorded snapshot is marked backed
up, its backup copy inside the checkpoint directory holds exactly the
project file's (existing) content; and nothing outside the checkpoint
directory is touched. -/
theorem createCheckpoint_spec (hashFn : FileData → String)
    (sizeFn : FileData → Nat) (agentDir projectRoot : Path)
    (description : String) (featureId : Option String) (cid : String)
    (now : Nat) (fs : FS)
    (hAP : ¬agentDir <+: projectRoot) (hPA : ¬projectRoot <+: agentDir) :
    (createCheckpoint hashFn sizeFn agentDir projectRoot description featureId
        cid now fs).1.id = cid
    ∧ (createCheckpoint hashFn sizeFn agentDir projectRoot description
        featureId cid now fs).1.created_at = now
    ∧ (createCheckpoint hashFn sizeFn agentDir projectRoot description
        featureId cid now fs).1.can_restore = true
    ∧ lookupFS (createCheckpoint hashFn sizeFn agentDir projectRoot
          description featureId cid now fs).2
        (agentDir ++ ["checkpoints", cid] ++ ["checkpoint.json"])
      = some (.ckpt (createCheckpoint hashFn sizeFn agentDir projectRoot
          description featureId cid now fs).1)
    ∧ (∀ s ∈ (createCheckpoint hashFn sizeFn agentDir projectRoot description
          featureId cid now fs).1.files_snapshot,
        s.backed_up = true
        ∧ lookupFS (createCheckpoint hashFn sizeFn agentDir projectRoot
              description featureId cid now fs).2
            (agentDir ++ ["checkpoints", cid] ++ s.path)
          = lookupFS fs (projectRoot ++ s.path)
        ∧ (lookupFS fs (projectRoot ++ s.path)).isSome)
    ∧ (∀ p : Path, ¬(agentDir ++ ["checkpoints", cid]) <+: p →
        lookupFS (createCheckpoint hashFn sizeFn agentDir projectRoot
            description featureId cid now fs).2 p
          = lookupFS fs p) := by
  set ckDir : Path := agentDir ++ ["checkpoints", cid] with hckdef
  have hdisjCk : ∀ u v : Path, ckDir ++ u ≠ projectRoot ++ v := by
    intro u v
    rw [hckdef, List.append_assoc]
    exact append_ne_append_of_disjoint hAP hPA _ v
  have hckproj : ∀ g : Path, projectRoot <+: g → ¬ckDir <+: g := by
    intro g hg hcg
    obtain ⟨t, ht⟩ := hg
    obtain ⟨u, hu⟩ := hcg
    exact hdisjCk u t (hu.trans ht.symm)
  have hsrcPre : ∀ f ∈ findFilesRecursive fs (projectRoot ++ ["src"]),
      (projectRoot ++ ["src"]) <+: f ∧ (lookupFS fs f).isSome := by
    intro f hf
    simp only [findFilesRecursive, List.mem_filter] at hf
    obtain ⟨hmem, hwalk⟩ := hf
    simp only [isWalkFile, Bool.and_eq_true] at hwalk
    exact ⟨(isPrefixOf_eq_true_iff _ _).mp hwalk.1.1.1,
      lookupFS_isSome_of_mem_keys fs f hmem⟩
  have hsrc : ∀ f ∈ findFilesRecursive fs (projectRoot ++ ["src"]),
      projectRoot <+: f ∧ ¬ckDir <+: f ∧ (lookupFS fs f).isSome := by
    intro f hf
    obtain ⟨h1, h2⟩ := hsrcPre f hf
    have hp : projectRoot <+: f := (List.prefix_append projectRoot ["src"]).trans h1
    exact ⟨hp, hckproj f hp, h2⟩
  obtain ⟨srcA, srcB, srcC⟩ := backupSrcFiles_spec hashFn sizeFn projectRoot
    ckDir (findFilesRecursive fs (projectRoot ++ ["src"])) fs hsrc
  set srcSnaps := (backupSrcFiles hashFn sizeFn projectRoot ckDir
    (findFilesRecursive fs (projectRoot ++ ["src"])) fs).1 with hsrcSnaps
  set fs1 := (backupSrcFiles hashFn sizeFn projectRoot ckDir
    (findFilesRecursive fs (projectRoot ++ ["src"])) fs).2 with hfs1
  have hnames : ∀ cf ∈ ["package.json", "tsconfig.json"],
      ¬ckDir <+: projectRoot ++ [cf] :=
    fun cf _ => hckproj _ (List.prefix_append projectRoot [cf])
  obtain ⟨cfgA, cfgB, cfgC⟩ := backupConfigFiles_spec hashFn sizeFn projectRoot
    ckDir ["package.json", "tsconfig.json"] fs1 hnames
  set cfgSnaps := (backupConfigFiles hashFn sizeFn projectRoot ckDir
    ["package.json", "tsconfig.json"] fs1).1 with hcfgSnaps
  set fs2 := (backupConfigFiles hashFn sizeFn projectRoot ckDir
    ["package.json", "tsconfig.json"] fs1).2 with hfs2
  have hsrcPath : ∀ s ∈ srcSnaps, ∃ t, s.path = "src" :: t := by
    intro s hs
    obtain ⟨_, f, hf, hpf⟩ := srcC s hs
    obtain ⟨t, ht⟩ := (hsrcPre f hf).1
    refine ⟨t, ?_⟩
    have : projectRoot ++ s.path = projectRoot ++ ("src" :: t) := by
      rw [hpf, ← ht, List.append_assoc]
      rfl
    exact List.append_cancel_left this
  have hsrc_ne_meta : ∀ s ∈ srcSnaps, s.path ≠ ["checkpoint.json"] := by
    intro s hs hEq
    obtain ⟨t, ht⟩ := hsrcPath s hs
    rw [hEq] at ht
    simp at ht
  have hcfgName : ∀ s ∈ cfgSnaps,
      s.path = ["package.json"] ∨ s.path = ["tsconfig.json"] := by
    intro s hs
    obtain ⟨_, cf, hcf, hpf⟩ := cfgC s hs
    simp only [List.mem_cons, List.mem_singleton, List.not_mem_nil, or_false]
      at hcf
    rcases hcf with h | h <;> [left; right] <;> rw [hpf, h]
  have hcfg_ne_meta : ∀ s ∈ cfgSnaps, s.path ≠ ["checkpoint.json"] := by
    intro s hs hEq
    rcases hcfgName s hs with h | h <;> rw [hEq] at h <;> simp at h
  have hsrc_ne_cfg : ∀ s ∈ srcSnaps, ∀ s' ∈ cfgSnaps, s.path ≠ s'.path := by
    intro s hs s' hs' hEq
    obtain ⟨t, ht⟩ := hsrcPath s hs
    rcases hcfgName s' hs' with h | h <;> rw [ht, h] at hEq <;> simp at hEq
  have hdecomp : createCheckpoint hashFn sizeFn agentDir projectRoot
      description featureId cid now fs
      = ({ id := cid, created_at := now, description := description,
           feature_id := featureId, files_snapshot := srcSnaps ++ cfgSnaps,
           can_restore := true },
         writeFS fs2 (ckDir ++ ["checkpoint.json"])
           (.ckpt { id := cid, created_at := now, description := description,
                    feature_id := featureId,
                    files_snapshot := srcSnaps ++ cfgSnaps,
                    can_restore := true })) := rfl
  rw [hdecomp]
  have hmetaNeCk : ∀ (q : Path), q ≠ ["checkpoint.json"] →
      ckDir ++ ["checkpoint.json"] ≠ ckDir ++ q :=
    fun q hq hEq => hq (List.append_cancel_left hEq).symm
  refine ⟨rfl, rfl, rfl, lookupFS_write_self _ _ _, ?_, ?_⟩
  · intro s hs
    simp only [List.mem_append] at hs
    rcases hs with hs | hs
    · obtain ⟨hb, f, hf, hpf⟩ := srcC s hs
      refine ⟨hb, ?_, ?_⟩
      · rw [lookupFS_write_other _ _ _ _ (hmetaNeCk s.path (fun h =>
          hsrc_ne_meta s hs h))]
        have hAcfg : ∀ s' ∈ cfgSnaps, ckDir ++ s.path ≠ ckDir ++ s'.path := by
          intro s' hs' hEq
          exact hsrc_ne_cfg s hs s' hs' (List.append_cancel_left hEq)
        rw [cfgA _ hAcfg]
        exact srcB s hs
      · rw [hpf]
        exact (hsrc f hf).2.2
    · obtain ⟨hb, cf, hcf, hpf⟩ := cfgC s hs
      obtain ⟨e1, e2⟩ := cfgB s hs
      have hAsrc : ∀ s' ∈ srcSnaps, (projectRoot ++ s.path) ≠ ckDir ++ s'.path :=
        fun s' _ hEq => hdisjCk s'.path s.path hEq.symm
      refine ⟨hb, ?_, ?_⟩
      · rw [lookupFS_write_other _ _ _ _ (hmetaNeCk s.path (fun h =>
          hcfg_ne_meta s hs h))]
        rw [e1, srcA _ hAsrc]
      · rw [srcA _ hAsrc] at e2
        exact e2
  · intro p hp
    have hpne : ∀ (q : Path), p ≠ ckDir ++ q :=
      fun q hEq => hp (hEq ▸ List.prefix_append ckDir q)
    rw [lookupFS_write_other _ _ _ _ (Ne.symm (hpne ["checkpoint.json"]))]
    rw [cfgA _ (fun s' _ => hpne s'.path)]
    rw [srcA _ (fun s' _ => hpne s'.path)]

/-- The restore loop on a fully backed-up snapshot list: every target file
ends up holding its backup content (a function of the relative path alone),
and paths that are no snapshot target are untouched. -/
theorem restoreFiles_complete (ckDir projectRoot : Path)
    (hdisj : ∀ u v : Path, ckDir ++ u ≠ projectRoot ++ v)
    (snaps : List FileSnapshot) (bval : Path → FileData) (fs : FS)
    (hB : ∀ s ∈ snaps, s.backed_up = true
      ∧ lookupFS fs (ckDir ++ s.path) = some (bval s.path)) :
    (∀ s ∈ snaps,
      lookupFS (restoreFiles ckDir projectRoot snaps fs) (projectRoot ++ s.path)
        = some (bval s.path))
    ∧ (∀ p : Path, (∀ s ∈ snaps, p ≠ projectRoot ++ s.path) →
      lookupFS (restoreFiles ckDir projectRoot snaps fs) p = lookupFS fs p) := by
  induction snaps generalizing fs with
  | nil => exact ⟨fun s hs => absurd hs (List.not_mem_nil s), fun p _ => rfl⟩
  | cons s0 rest ih =>
    obtain ⟨hb0, hd0⟩ := hB s0 (List.mem_cons_self s0 rest)
    have hstep : restoreFiles ckDir projectRoot (s0 :: rest) fs
        = restoreFiles ckDir projectRoot rest
            (writeFS fs (projectRoot ++ s0.path) (bval s0.path)) := by
      simp [restoreFiles, hb0, existsFS, hd0, copyFile]
    set fs1 := writeFS fs (projectRoot ++ s0.path) (bval s0.path) with hfs1
    have hBrest : ∀ s ∈ rest, s.backed_up = true
        ∧ lookupFS fs1 (ckDir ++ s.path) = some (bval s.path) := by
      intro s hs
      obtain ⟨h1, h2⟩ := hB s (List.mem_cons_of_mem _ hs)
      refine ⟨h1, ?_⟩
      rw [hfs1, lookupFS_write_other _ _ _ _ (fun hEq =>
        hdisj s.path s0.path hEq.symm)]
      exact h2
    obtain ⟨ihA, ihF⟩ := ih fs1 hBrest
    rw [hstep]
    constructor
    · intro s hs
      simp only [List.mem_cons] at hs
      rcases hs with hs | hs
      · subst hs
        by_cases hdup : ∃ s' ∈ rest, s'.path = s.path
        · obtain ⟨s', hs', hps'⟩ := hdup
          have := ihA s' hs'
          rw [hps'] at this
          exact this
        · push_neg at hdup
          have hav : ∀ s' ∈ rest, (projectRoot ++ s.path) ≠ projectRoot ++ s'.path := by
            intro s' hs' hEq
            exact hdup s' hs' ((List.append_cancel_left hEq).symm)
          rw [ihF _ hav, hfs1, lookupFS_write_self]
      · exact ihA s hs
    · intro p hp
      have hptail : ∀ s ∈ rest, p ≠ projectRoot ++ s.path :=
        fun s hs => hp s (List.mem_cons_of_mem _ hs)
      rw [ihF p hptail, hfs1, lookupFS_write_other _ _ _ _
        (Ne.symm (hp s0 (List.mem_cons_self s0 rest)))]

/-- C3: create a checkpoint, then overwrite a tracked file (any snapshot
entry of the created checkpoint) with arbitrary new content, then restore:
the file again holds exactly its pre-mutation content (which create left
untouched, so it also equals its content in the original tree); and a second
consecutive restore succeeds and leaves every tracked file's content
unchanged. -/
theorem c3_checkpoint_roundtrip (hashFn : FileData → String)
    (sizeFn : FileData → Nat) (agentDir projectRoot : Path)
    (description : String) (featureId : Option String) (cid : String)
    (now : Nat) (fs : FS) (ck : CheckpointInfo) (fsC : FS)
    (snap : FileSnapshot) (newData : FileData)
    (hAP : ¬agentDir <+: projectRoot) (hPA : ¬projectRoot <+: agentDir)
    (hcreate : createCheckpoint hashFn sizeFn agentDir projectRoot description
      featureId cid now fs = (ck, fsC))
    (hsnap : snap ∈ ck.files_snapshot) :
    (restoreCheckpoint agentDir projectRoot cid
        (writeFS fsC (projectRoot ++ snap.path) newData)).1 = true
    ∧ lookupFS (restoreCheckpoint agentDir projectRoot cid
          (writeFS fsC (projectRoot ++ snap.path) newData)).2
        (projectRoot ++ snap.path)
      = lookupFS fsC (projectRoot ++ snap.path)
    ∧ lookupFS (restoreCheckpoint agentDir projectRoot cid
          (writeFS fsC (projectRoot ++ snap.path) newData)).2
        (projectRoot ++ snap.path)
      = lookupFS fs (projectRoot ++ snap.path)
    ∧ (restoreCheckpoint agentDir projectRoot cid
        (restoreCheckpoint agentDir projectRoot cid
          (writeFS fsC (projectRoot ++ snap.path) newData)).2).1 = true
    ∧ (∀ s ∈ ck.files_snapshot,
        lookupFS (restoreCheckpoint agentDir projectRoot cid
            (restoreCheckpoint agentDir projectRoot cid
              (writeFS fsC (projectRoot ++ snap.path) newData)).2).2
          (projectRoot ++ s.path)
        = lookupFS (restoreCheckpoint agentDir projectRoot cid
            (writeFS fsC (projectRoot ++ snap.path) newData)).2
          (projectRoot ++ s.path)) := by
  obtain ⟨hid, hct, hcr, hmeta, hS3, hS4⟩ := createCheckpoint_spec hashFn sizeFn
    agentDir projectRoot description featureId cid now fs hAP hPA
  rw [hcreate] at hid hct hcr hmeta hS3 hS4
  simp only at hid hct hcr hmeta hS3 hS4
  set ckDir : Path := agentDir ++ ["checkpoints", cid] with hckdef
  have hdisjCk : ∀ u v : Path, ckDir ++ u ≠ projectRoot ++ v := by
    intro u v
    rw [hckdef, List.append_assoc]
    exact append_ne_append_of_disjoint hAP hPA _ v
  have hnotCk : ∀ q : Path, ¬ckDir <+: projectRoot ++ q := by
    intro q hq
    obtain ⟨u, hu⟩ := hq
    exact hdisjCk u q hu
  set bval : Path → FileData :=
    fun p => (lookupFS fs (projectRoot ++ p)).getD (FileData.text "") with hbval
  have hbv : ∀ s ∈ ck.files_snapshot,
      lookupFS fs (projectRoot ++ s.path) = some (bval s.path) := by
    intro s hs
    obtain ⟨_, _, h3⟩ := hS3 s hs
    rw [hbval]
    cases hcase : lookupFS fs (projectRoot ++ s.path) with
    | none => rw [hcase] at h3; simp at h3
    | some d => simp [hcase]
  set mutated := writeFS fsC (projectRoot ++ snap.path) newData with hmut
  have hmetaMut : lookupFS mutated (ckDir ++ ["checkpoint.json"])
      = some (.ckpt ck) := by
    rw [hmut, lookupFS_write_other _ _ _ _ (fun hEq =>
      hdisjCk ["checkpoint.json"] snap.path hEq.symm)]
    exact hmeta
  have hBmut : ∀ s ∈ ck.files_snapshot, s.backed_up = true
      ∧ lookupFS mutated (ckDir ++ s.path) = some (bval s.path) := by
    intro s hs
    obtain ⟨h1, h2, _⟩ := hS3 s hs
    refine ⟨h1, ?_⟩
    rw [hmut, lookupFS_write_other _ _ _ _ (fun hEq =>
      hdisjCk s.path snap.path hEq.symm), h2]
    exact hbv s hs
  obtain ⟨RA, RF⟩ := restoreFiles_complete ckDir projectRoot hdisjCk
    ck.files_snapshot bval mutated hBmut
  have hrest1 : restoreCheckpoint agentDir projectRoot cid mutated
      = (true, restoreFiles ckDir projectRoot ck.files_snapshot mutated) := by
    simp only [restoreCheckpoint]
    rw [hmetaMut]
    simp [hcr]
  set R1 := restoreFiles ckDir projectRoot ck.files_snapshot mutated with hR1
  have hmetaR1 : lookupFS R1 (ckDir ++ ["checkpoint.json"])
      = some (.ckpt ck) := by
    rw [hR1, RF _ (fun s _ => fun hEq =>
      hdisjCk ["checkpoint.json"] s.path hEq)]
    exact hmetaMut
  have hBR1 : ∀ s ∈ ck.files_snapshot, s.backed_up = true
      ∧ lookupFS R1 (ckDir ++ s.path) = some (bval s.path) := by
    intro s hs
    obtain ⟨h1, h2⟩ := hBmut s hs
    refine ⟨h1, ?_⟩
    rw [hR1, RF _ (fun s' _ => fun hEq => hdisjCk s.path s'.path hEq)]
    exact h2
  obtain ⟨RA2, _⟩ := restoreFiles_complete ckDir projectRoot hdisjCk
    ck.files_snapshot bval R1 hBR1
  have hrest2 : restoreCheckpoint agentDir projectRoot cid R1
      = (true, restoreFiles ckDir projectRoot ck.files_snapshot R1) := by
    simp only [restoreCheckpoint]
    rw [hmetaR1]
    simp [hcr]
  have hpre : lookupFS fsC (projectRoot ++ snap.path)
      = lookupFS fs (projectRoot ++ snap.path) := hS4 _ (hnotCk snap.path)
  refine ⟨?_, ?_, ?_, ?_, ?_⟩
  · rw [hrest1]
  · rw [hrest1]
    simp only
    rw [RA snap hsnap, hpre]
    exact (hbv snap hsnap).symm
  · rw [hrest1]
    simp only
    rw [RA snap hsnap]
    exact (hbv snap hsnap).symm
  · rw [hrest1]
    simp only
    rw [hrest2]
  · intro s hs
    rw [hrest1]
    simp only
    rw [hrest2]
    simp only
    rw [RA2 s hs, RA s hs]

/-- Concrete hash primitive for the C3 witness. -/
def c3hash : FileData → String := fun _ => "h"

/-- Concrete size primitive for the C3 witness. -/
def c3size : FileData → Nat := fun _ => 1

/-- Project tree for the C3 witness: one source file and one config file. -/
def c3fs0 : FS :=
  [(["p", "src", "app.ts"], .text "v0"), (["p", "package.json"], .text "pkg")]

/-- The checkpoint created over `c3fs0` for the C3 witness. -/
def c3created : CheckpointInfo × FS :=
  createCheckpoint c3hash c3size ["a"] ["p"] "d" none "ck1" 0 c3fs0

/-- The snapshot entry of the tracked source file in the C3 witness. -/
def c3snap : FileSnapshot := ⟨["src", "app.ts"], "h", 1, true⟩

/-- C3 witness: checkpoint `c3fs0`, overwrite `p/src/app.ts` with `"v1"`,
restore — the file holds `"v0"` again; a second restore succeeds and changes
nothing. -/
theorem c3_checkpoint_roundtrip_witness :
    (restoreCheckpoint ["a"] ["p"] "ck1"
        (writeFS c3created.2 ["p", "src", "app.ts"] (.text "v1"))).1 = true
    ∧ lookupFS (restoreCheckpoint ["a"] ["p"] "ck1"
          (writeFS c3created.2 ["p", "src", "app.ts"] (.text "v1"))).2
        ["p", "src", "app.ts"]
      = lookupFS c3fs0 ["p", "src", "app.ts"]
    ∧ (restoreCheckpoint ["a"] ["p"] "ck1"
        (restoreCheckpoint ["a"] ["p"] "ck1"
          (writeFS c3created.2 ["p", "src", "app.ts"] (.text "v1"))).2).1 = true
    ∧ lookupFS (restoreCheckpoint ["a"] ["p"] "ck1"
          (restoreCheckpoint ["a"] ["p"] "ck1"
            (writeFS c3created.2 ["p", "src", "app.ts"] (.text "v1"))).2).2
        ["p", "src", "app.ts"]
      = lookupFS (restoreCheckpoint ["a"] ["p"] "ck1"
          (writeFS c3created.2 ["p", "src", "app.ts"] (.text "v1"))).2
        ["p", "src", "app.ts"] := by
  have h := c3_checkpoint_roundtrip c3hash c3size ["a"] ["p"] "d" none "ck1" 0
    c3fs0 c3created.1 c3created.2 c3snap (.text "v1")
    (by decide) (by decide) rfl (by decide)
  obtain ⟨h1, _, h3, h4, h5⟩ := h
  have h5' := h5 c3snap (by decide)
  exact ⟨by simpa using h1, by simpa using h3, by simpa using h4,
    by simpa using h5'⟩

/-! ## Claim C6: retention of the most recent checkpoints -/

instance : Inhabited SessionStatus := ⟨.active⟩

instance : Inhabited FileSnapshot := ⟨⟨[], "", 0, false⟩⟩

instance : Inhabited CheckpointInfo := ⟨⟨"", 0, "", none, [], false⟩⟩

instance : Inhabited SessionState :=
  ⟨⟨"", none, 0, 0, .active, none, [], [], "", [], [], [], [], none⟩⟩

instance : Inhabited FileData := ⟨.text ""⟩

theorem mem_keys_of_lookupFS_some {fs : FS} {p : Path} {d : FileData}
    (h : lookupFS fs p = some d) : p ∈ fs.map Prod.fst := by
  induction fs with
  | nil => simp [lookupFS] at h
  | cons e rest ih =>
    obtain ⟨q, d'⟩ := e
    by_cases hq : q = p
    · simp [hq]
    · simp only [lookupFS_cons, hq, if_false] at h
      simp [ih h]

theorem mem_dedupFirst {l : List String} {a : String} :
    a ∈ dedupFirst l ↔ a ∈ l := by
  induction l with
  | nil => simp [dedupFirst]
  | cons x xs ih =>
    simp only [dedupFirst, List.mem_cons, List.mem_filter]
    constructor
    · rintro (h | ⟨h1, _⟩)
      · exact Or.inl h
      · exact Or.inr (ih.mp h1)
    · rintro (h | h)
      · exact Or.inl h
      · by_cases hax : a = x
        · exact Or.inl hax
        · exact Or.inr ⟨ih.mpr h, by simpa using hax⟩

theorem nodup_dedupFirst (l : List String) : (dedupFirst l).Nodup := by
  induction l with
  | nil => simp [dedupFirst]
  | cons x xs ih =>
    simp only [dedupFirst]
    refine List.Nodup.cons ?_ (List.Nodup.filter _ ih)
    intro hmem
    have := List.of_mem_filter hmem
    simp at this

theorem childNames_nodup (fs : FS) (dir : Path) : (childNames fs dir).Nodup :=
  nodup_dedupFirst _

theorem mem_childNames {fs : FS} {dir : Path} {a : String} :
    a ∈ childNames fs dir ↔
      ∃ p ∈ fs.map Prod.fst, dir <+: p ∧ (p.drop dir.length).head? = some a := by
  unfold childNames
  rw [mem_dedupFirst, List.mem_filterMap]
  constructor
  · rintro ⟨p, hp, hcond⟩
    by_cases hpre : dir.isPrefixOf p
    · rw [if_pos hpre] at hcond
      exact ⟨p, hp, (isPrefixOf_eq_true_iff _ _).mp hpre, hcond⟩
    · rw [if_neg hpre] at hcond
      exact absurd hcond (by simp)
  · rintro ⟨p, hp, hpre, hhd⟩
    exact ⟨p, hp, by rw [if_pos ((isPrefixOf_eq_true_iff _ _).mpr hpre)]; exact hhd⟩

theorem append_singleton_prefix_parts {dir p : Path} {x : String}
    (h : (dir ++ [x]) <+: p) :
    dir <+: p ∧ (p.drop dir.length).head? = some x := by
  obtain ⟨t, ht⟩ := h
  rw [List.append_assoc] at ht
  subst ht
  refine ⟨List.prefix_append dir ([x] ++ t), ?_⟩
  rw [List.drop_left]
  rfl

theorem append_singleton_prefix_of_head_drop {dir p : Path} {x : String}
    (hpre : dir <+: p) (hhd : (p.drop dir.length).head? = some x) :
    (dir ++ [x]) <+: p := by
  obtain ⟨t, ht⟩ := hpre
  subst ht
  rw [List.drop_left] at hhd
  cases t with
  | nil => simp at hhd
  | cons y t' =>
    simp only [List.head?_cons, Option.some.injEq] at hhd
    subst hhd
    exact ⟨t', by simp⟩

theorem append_singleton_prefix_inj {dir p : Path} {x y : String}
    (hx : (dir ++ [x]) <+: p) (hy : (dir ++ [y]) <+: p) : x = y := by
  have h1 := (append_singleton_prefix_parts hx).2
  have h2 := (append_singleton_prefix_parts hy).2
  rw [h1] at h2
  exact Option.some.inj h2

theorem lookupFS_removeDirRec_under {fs : FS} {dir p : Path}
    (h : dir <+: p) : lookupFS (removeDirRec fs dir) p = none := by
  induction fs with
  | nil => rfl
  | cons e rest ih =>
    obtain ⟨q, d⟩ := e
    simp only [removeDirRec, List.filter]
    by_cases hq : dir.isPrefixOf q
    · simp only [hq, Bool.not_true]
      exact ih
    · simp only [hq, Bool.not_false]
      have hqp : q ≠ p := by
        intro hEq
        exact hq ((isPrefixOf_eq_true_iff _ _).mpr (hEq ▸ h))
      simpa [lookupFS, removeDirRec, hqp] using ih

theorem lookupFS_removeDirRec_outside {fs : FS} {dir p : Path}
    (h : ¬dir <+: p) : lookupFS (removeDirRec fs dir) p = lookupFS fs p := by
  induction fs with
  | nil => rfl
  | cons e rest ih =>
    obtain ⟨q, d⟩ := e
    simp only [removeDirRec, List.filter]
    by_cases hq : dir.isPrefixOf q
    · have hqp : q ≠ p := by
        intro hEq
        exact h (hEq ▸ (isPrefixOf_eq_true_iff _ _).mp hq)
      simp only [hq, Bool.not_true]
      simpa [lookupFS, removeDirRec, hqp] using ih
    · simp only [hq, Bool.not_false]
      by_cases hqp : q = p
      · simp [lookupFS, hqp]
      · simpa [lookupFS, removeDirRec, hqp] using ih

theorem lookupFS_removeDirRec_none {fs : FS} {dir p : Path}
    (h : lookupFS fs p = none) : lookupFS (removeDirRec fs dir) p = none := by
  by_cases hp : dir <+: p
  · exact lookupFS_removeDirRec_under hp
  · rw [lookupFS_removeDirRec_outside hp]
    exact h

theorem removeDirRec_keys_subset {fs : FS} {dir : Path} {p : Path}
    (h : p ∈ (removeDirRec fs dir).map Prod.fst) : p ∈ fs.map Prod.fst := by
  induction fs with
  | nil => exact h
  | cons e rest ih =>
    obtain ⟨q, d⟩ := e
    simp only [removeDirRec, List.filter] at h
    by_cases hq : dir.isPrefixOf q
    · simp only [hq, Bool.not_true] at h
      exact List.mem_cons_of_mem _ (ih h)
    · simp only [hq, Bool.not_false, List.map_cons, List.mem_cons] at h
      rcases h with h | h
      · simp [h]
      · exact List.mem_cons_of_mem _ (ih h)

theorem deleteCkDirs_none {agentDir : Path} {cs : List CheckpointInfo}
    {fs : FS} {p : Path} (h : lookupFS fs p = none) :
    lookupFS (deleteCkDirs agentDir cs fs) p = none := by
  induction cs generalizing fs with
  | nil => exact h
  | cons c rest ih =>
    simp only [deleteCkDirs]
    by_cases hex : existsDirFS fs (agentDir ++ ["checkpoints", c.id]) = true
    · rw [if_pos hex]
      exact ih (lookupFS_removeDirRec_none h)
    · rw [if_neg hex]
      exact ih h

theorem deleteCkDirs_kill {agentDir : Path} {cs : List CheckpointInfo}
    {fs : FS} {p : Path}
    (h : ∃ c ∈ cs, (agentDir ++ ["checkpoints", c.id]) <+: p) :
    lookupFS (deleteCkDirs agentDir cs fs) p = none := by
  induction cs generalizing fs with
  | nil => simp at h
  | cons c0 rest ih =>
    obtain ⟨c, hc, hcp⟩ := h
    simp only [List.mem_cons] at hc
    simp only [deleteCkDirs]
    rcases hc with hc | hc
    · subst hc
      by_cases hex : existsDirFS fs (agentDir ++ ["checkpoints", c.id]) = true
      · rw [if_pos hex]
        exact deleteCkDirs_none (lookupFS_removeDirRec_under hcp)
      · rw [if_neg hex]
        have hnone : lookupFS fs p = none := by
          cases hcase : lookupFS fs p with
          | none => rfl
          | some d =>
            exfalso
            apply hex
            simp only [existsDirFS, List.any_eq_true]
            exact ⟨p, mem_keys_of_lookupFS_some hcase,
              (isPrefixOf_eq_true_iff _ _).mpr hcp⟩
        exact deleteCkDirs_none hnone
    · by_cases hex : existsDirFS fs (agentDir ++ ["checkpoints", c0.id]) = true
      · rw [if_pos hex]
        exact ih ⟨c, hc, hcp⟩
      · rw [if_neg hex]
        exact ih ⟨c, hc, hcp⟩

theorem deleteCkDirs_frame {agentDir : Path} {cs : List CheckpointInfo}
    {fs : FS} {p : Path}
    (h : ∀ c ∈ cs, ¬(agentDir ++ ["checkpoints", c.id]) <+: p) :
    lookupFS (deleteCkDirs agentDir cs fs) p = lookupFS fs p := by
  induction cs generalizing fs with
  | nil => rfl
  | cons c0 rest ih =>
    simp only [deleteCkDirs]
    have htail : ∀ c ∈ rest, ¬(agentDir ++ ["checkpoints", c.id]) <+: p :=
      fun c hc => h c (List.mem_cons_of_mem _ hc)
    by_cases hex : existsDirFS fs (agentDir ++ ["checkpoints", c0.id]) = true
    · rw [if_pos hex, ih htail, lookupFS_removeDirRec_outside
        (h c0 (List.mem_cons_self _ _))]
    · rw [if_neg hex, ih htail]

theorem deleteCkDirs_keys_subset {agentDir : Path} {cs : List CheckpointInfo}
    {fs : FS} {p : Path}
    (h : p ∈ (deleteCkDirs agentDir cs fs).map Prod.fst) :
    p ∈ fs.map Prod.fst := by
  induction cs generalizing fs with
  | nil => exact h
  | cons c0 rest ih =>
    simp only [deleteCkDirs] at h
    by_cases hex : existsDirFS fs (agentDir ++ ["checkpoints", c0.id]) = true
    · rw [if_pos hex] at h
      exact removeDirRec_keys_subset (ih h)
    · rw [if_neg hex] at h
      exact ih h

theorem backupSrcFiles_keys (hashFn : FileData → String)
    (sizeFn : FileData → Nat) (projectRoot ckDir : Path) (files : List Path)
    (fs : FS) :
    ∀ p ∈ (backupSrcFiles hashFn sizeFn projectRoot ckDir files fs).2.map
      Prod.fst, ckDir <+: p ∨ p ∈ fs.map Prod.fst := by
  induction files generalizing fs with
  | nil => exact fun p hp => Or.inr hp
  | cons f0 rest ih =>
    intro p hp
    simp only [backupSrcFiles] at hp
    rcases hcp : lookupFS fs f0 with _ | d
    · simp only [copyFile, hcp] at hp
      exact ih fs p hp
    · simp only [copyFile, hcp, writeFS] at hp
      rcases ih _ p hp with h | h
      · exact Or.inl h
      · simp only [List.map_cons, List.mem_cons] at h
        rcases h with h | h
        · exact Or.inl (h ▸ List.prefix_append ckDir _)
        · exact Or.inr h

theorem backupConfigFiles_keys (hashFn : FileData → String)
    (sizeFn : FileData → Nat) (projectRoot ckDir : Path)
    (names : List String) (fs : FS) :
    ∀ p ∈ (backupConfigFiles hashFn sizeFn projectRoot ckDir names fs).2.map
      Prod.fst, ckDir <+: p ∨ p ∈ fs.map Prod.fst := by
  induction names generalizing fs with
  | nil => exact fun p hp => Or.inr hp
  | cons cf0 rest ih =>
    intro p hp
    simp only [backupConfigFiles] at hp
    by_cases hex : existsFS fs (projectRoot ++ [cf0]) = true
    · rw [if_pos hex] at hp
      simp only at hp
      rcases hcp : lookupFS fs (projectRoot ++ [cf0]) with _ | d
      · simp only [copyFile, hcp] at hp
        exact ih fs p hp
      · simp only [copyFile, hcp, writeFS] at hp
        rcases ih _ p hp with h | h
        · exact Or.inl h
        · simp only [List.map_cons, List.mem_cons] at h
          rcases h with h | h
          · exact Or.inl (h ▸ List.prefix_append ckDir _)
          · exact Or.inr h
    · rw [if_neg hex] at hp
      exact ih fs p hp

theorem createCheckpoint_keys (hashFn : FileData → String)
    (sizeFn : FileData → Nat) (agentDir projectRoot : Path)
    (description : String) (featureId : Option String) (cid : String)
    (now : Nat) (fs : FS) :
    ∀ p ∈ (createCheckpoint hashFn sizeFn agentDir projectRoot description
      featureId cid now fs).2.map Prod.fst,
      (agentDir ++ ["checkpoints", cid]) <+: p ∨ p ∈ fs.map Prod.fst := by
  intro p hp
  simp only [createCheckpoint, writeFS, List.map_cons, List.mem_cons] at hp
  rcases hp with hp | hp
  · exact Or.inl (hp ▸ List.prefix_append _ _)
  · rcases backupConfigFiles_keys hashFn sizeFn projectRoot
        (agentDir ++ ["checkpoints", cid]) _ _ p hp with h | h
    · exact Or.inl h
    · exact backupSrcFiles_keys hashFn sizeFn projectRoot
        (agentDir ++ ["checkpoints", cid]) _ fs p h

/-- The C6 scenario: create a sequence of checkpoints with the given ids and
creation instants, threading the filesystem. -/
def createMany (hashFn : FileData → String) (sizeFn : FileData → Nat)
    (agentDir projectRoot : Path) (description : String) :
    List (String × Nat) → FS → FS
  | [], fs => fs
  | pr :: rest, fs =>
    createMany hashFn sizeFn agentDir projectRoot description rest
      (createCheckpoint hashFn sizeFn agentDir projectRoot description none
        pr.1 pr.2 fs).2

/-- What a run of `createMany` guarantees: (frame) paths below no created
checkpoint directory are untouched, (meta) every created checkpoint's
metadata is in place with its id and creation time, and (keys) every stored
path below `checkpoints/` lies below a created checkpoint's directory or was
present before. -/
theorem createMany_spec (hashFn : FileData → String) (sizeFn : FileData → Nat)
    (agentDir projectRoot : Path) (description : String)
    (hAP : ¬agentDir <+: projectRoot) (hPA : ¬projectRoot <+: agentDir)
    (specs : List (String × Nat)) (fs : FS)
    (hids : (specs.map Prod.fst).Nodup) :
    (∀ p : Path,
      (∀ pr ∈ specs, ¬(agentDir ++ ["checkpoints", pr.1]) <+: p) →
      lookupFS (createMany hashFn sizeFn agentDir projectRoot description
        specs fs) p = lookupFS fs p)
    ∧ (∀ pr ∈ specs, ∃ ck : CheckpointInfo, ck.id = pr.1
        ∧ ck.created_at = pr.2
        ∧ lookupFS (createMany hashFn sizeFn agentDir projectRoot description
            specs fs) (agentDir ++ ["checkpoints", pr.1, "checkpoint.json"])
          = some (.ckpt ck))
    ∧ (∀ p ∈ (createMany hashFn sizeFn agentDir projectRoot description
        specs fs).map Prod.fst,
        (∃ pr ∈ specs, (agentDir ++ ["checkpoints", pr.1]) <+: p)
        ∨ p ∈ fs.map Prod.fst) := by
  induction specs generalizing fs with
  | nil =>
    exact ⟨fun p _ => rfl, fun pr hpr => absurd hpr (List.not_mem_nil pr),
      fun p hp => Or.inr hp⟩
  | cons pr0 rest ih =>
    have hids' : (rest.map Prod.fst).Nodup := (List.nodup_cons.mp hids).2
    have hid0 : pr0.1 ∉ rest.map Prod.fst := (List.nodup_cons.mp hids).1
    obtain ⟨hid, hct, hcr, hmeta, hS3, hS4⟩ := createCheckpoint_spec hashFn
      sizeFn agentDir projectRoot description none pr0.1 pr0.2 fs hAP hPA
    set fs1 := (createCheckpoint hashFn sizeFn agentDir projectRoot
      description none pr0.1 pr0.2 fs).2 with hfs1
    obtain ⟨ihA, ihB, ihC⟩ := ih fs1 hids'
    have hstep : createMany hashFn sizeFn agentDir projectRoot description
        (pr0 :: rest) fs
        = createMany hashFn sizeFn agentDir projectRoot description rest fs1 :=
      rfl
    rw [hstep]
    have hnorm : agentDir ++ ["checkpoints", pr0.1] ++ ["checkpoint.json"]
        = agentDir ++ ["checkpoints", pr0.1, "checkpoint.json"] := by simp
    refine ⟨?_, ?_, ?_⟩
    · intro p hp
      rw [ihA p (fun pr hpr => hp pr (List.mem_cons_of_mem _ hpr)),
        hS4 p (hp pr0 (List.mem_cons_self _ _))]
    · intro pr hpr
      simp only [List.mem_cons] at hpr
      rcases hpr with hpr | hpr
      · subst hpr
        refine ⟨(createCheckpoint hashFn sizeFn agentDir projectRoot
            description none pr.1 pr.2 fs).1, hid, hct, ?_⟩
        have hkeep : ∀ pr' ∈ rest,
            ¬(agentDir ++ ["checkpoints", pr'.1]) <+:
              (agentDir ++ ["checkpoints", pr.1, "checkpoint.json"]) := by
          intro pr' hpr' hpre
          have h0 : (agentDir ++ ["checkpoints"] ++ [pr.1]) <+:
              (agentDir ++ ["checkpoints", pr.1, "checkpoint.json"]) := by
            refine ⟨["checkpoint.json"], ?_⟩
            simp
          have h1 : (agentDir ++ ["checkpoints"] ++ [pr'.1]) <+:
              (agentDir ++ ["checkpoints", pr.1, "checkpoint.json"]) := by
            simpa using hpre
          have := append_singleton_prefix_inj h1 h0
          exact hid0 (this ▸ List.mem_map_of_mem Prod.fst hpr')
        rw [ihA _ hkeep, ← hnorm, hmeta]
      · exact ihB pr hpr
    · intro p hp
      rcases ihC p hp with h | h
      · obtain ⟨pr', hpr', hpre⟩ := h
        exact Or.inl ⟨pr', List.mem_cons_of_mem _ hpr', hpre⟩
      · rcases createCheckpoint_keys hashFn sizeFn agentDir projectRoot
            description none pr0.1 pr0.2 fs p h with h2 | h2
        · exact Or.inl ⟨pr0, List.mem_cons_self _ _, h2⟩
        · exact Or.inr h2

/-- The comparator relation of `listCheckpoints` is total. -/
instance : IsTotal CheckpointInfo
    (fun a b => b.created_at ≤ a.created_at) :=
  ⟨fun a b => (Nat.le_total a.created_at b.created_at).symm⟩

/-- The comparator relation of `listCheckpoints` is transitive. -/
instance : IsTrans CheckpointInfo
    (fun a b => b.created_at ≤ a.created_at) :=
  ⟨fun _ _ _ h1 h2 => Nat.le_trans h2 h1⟩

/-- Strict descending creation order is (vacuously) antisymmetric. -/
instance : IsAntisymm CheckpointInfo
    (fun a b => b.created_at < a.created_at) :=
  ⟨fun _ _ h1 h2 => absurd (Nat.lt_trans h1 h2) (Nat.lt_irrefl _)⟩

/-- Sorting by creation time, newest first, of any permutation of a list
whose creation times are strictly descending and pairwise distinct returns
exactly that list. -/
theorem sorted_desc_eq {infos LD : List CheckpointInfo}
    (hperm : infos.Perm LD)
    (hLD : LD.Pairwise (fun a b => b.created_at < a.created_at)) :
    List.insertionSort (fun a b => b.created_at ≤ a.created_at) infos = LD := by
  have hMperm : (List.insertionSort (fun a b => b.created_at ≤ a.created_at)
      infos).Perm LD :=
    (List.perm_insertionSort _ infos).trans hperm
  have hLDne : LD.Pairwise (fun a b => a.created_at ≠ b.created_at) :=
    hLD.imp fun h => ne_of_gt h
  have hMapNodup : ((List.insertionSort
      (fun a b => b.created_at ≤ a.created_at) infos).map
        (fun c => c.created_at)).Nodup :=
    ((hMperm.map (fun c => c.created_at)).nodup_iff).mpr
      (List.pairwise_map.mpr hLDne)
  have hMne : (List.insertionSort (fun a b => b.created_at ≤ a.created_at)
      infos).Pairwise (fun a b => a.created_at ≠ b.created_at) :=
    List.pairwise_map.mp hMapNodup
  have hMle : (List.insertionSort (fun a b => b.created_at ≤ a.created_at)
      infos).Pairwise (fun a b => b.created_at ≤ a.created_at) :=
    List.sorted_insertionSort _ infos
  have hMgt : (List.insertionSort (fun a b => b.created_at ≤ a.created_at)
      infos).Pairwise (fun a b => b.created_at < a.created_at) :=
    (hMle.and hMne).imp fun h => Nat.lt_of_le_of_ne h.1 (Ne.symm h.2)
  exact List.eq_of_perm_of_sorted hMperm hMgt hLD

/-- C6: starting from an agent directory with no checkpoints, create
`keepCount + k` checkpoints (distinct ids, strictly increasing creation
times) and call `cleanOldCheckpoints keepCount`: exactly the `keepCount` most
recently created checkpoints remain listed (newest first), and for every
pruned checkpoint the entire checkpoint directory — metadata and backup
payload — is gone. -/
theorem c6_cleanup_retention (hashFn : FileData → String)
    (sizeFn : FileData → Nat) (agentDir projectRoot : Path)
    (description : String) (specs : List (String × Nat)) (fs0 : FS)
    (keepCount k : Nat)
    (hAP : ¬agentDir <+: projectRoot) (hPA : ¬projectRoot <+: agentDir)
    (hlen : specs.length = keepCount + k)
    (hids : (specs.map Prod.fst).Nodup)
    (htimes : (specs.map Prod.snd).Pairwise (· < ·))
    (hfresh : ∀ p ∈ fs0.map Prod.fst, ¬(agentDir ++ ["checkpoints"]) <+: p) :
    (listCheckpoints agentDir (cleanOldCheckpoints agentDir keepCount
        (createMany hashFn sizeFn agentDir projectRoot description specs
          fs0))).map (fun c => c.id)
      = ((specs.drop k).map Prod.fst).reverse
    ∧ (∀ pr ∈ specs.take k, ∀ p : Path,
        (agentDir ++ ["checkpoints", pr.1]) <+: p →
        lookupFS (cleanOldCheckpoints agentDir keepCount
          (createMany hashFn sizeFn agentDir projectRoot description specs
            fs0)) p = none) := by
  obtain ⟨mA, mB, mC⟩ := createMany_spec hashFn sizeFn agentDir projectRoot
    description hAP hPA specs fs0 hids
  set fsN := createMany hashFn sizeFn agentDir projectRoot description specs
    fs0 with hfsN
  choose! F hF using mB
  have hprefixMeta : ∀ (x y : String),
      (agentDir ++ ["checkpoints", x]) <+:
        (agentDir ++ ["checkpoints", y, "checkpoint.json"]) → x = y := by
    intro x y h
    have h1 : ((agentDir ++ ["checkpoints"]) ++ [x]) <+:
        (agentDir ++ ["checkpoints", y, "checkpoint.json"]) := by simpa using h
    have h2 : ((agentDir ++ ["checkpoints"]) ++ [y]) <+:
        (agentDir ++ ["checkpoints", y, "checkpoint.json"]) := by
      refine ⟨["checkpoint.json"], ?_⟩
      simp
    exact append_singleton_prefix_inj h1 h2
  -- Generic listing characterisation, applied to the state before and after
  -- the cleanup.
  have phase : ∀ (kept : List (String × Nat)) (g : FS),
      (kept.map Prod.fst).Nodup →
      ((kept.map Prod.snd).Pairwise (· < ·)) →
      (∀ pr ∈ kept, pr ∈ specs) →
      (∀ pr ∈ kept,
        lookupFS g (agentDir ++ ["checkpoints", pr.1, "checkpoint.json"])
          = some (.ckpt (F pr))) →
      (∀ p ∈ g.map Prod.fst, (agentDir ++ ["checkpoints"]) <+: p →
        ∃ pr ∈ kept, (agentDir ++ ["checkpoints", pr.1]) <+: p) →
      listCheckpoints agentDir g = (kept.map F).reverse := by
    intro kept g hknodup hktimes hsub hmetaK hkeysK
    have hkeynorm : ∀ a : String,
        (agentDir ++ ["checkpoints"]) ++ [a, "checkpoint.json"]
          = agentDir ++ ["checkpoints", a, "checkpoint.json"] := by
      intro a; simp
    have hparse : ∀ pr ∈ kept,
        parseCk g (agentDir ++ ["checkpoints"]) pr.1 = some (F pr) := by
      intro pr hpr
      unfold parseCk
      rw [hkeynorm, hmetaK pr hpr]
    have hparseId : ∀ a c, parseCk g (agentDir ++ ["checkpoints"]) a = some c →
        ∃ pr ∈ kept, a = pr.1 ∧ c = F pr := by
      intro a c hc
      unfold parseCk at hc
      rcases hcase : lookupFS g
          ((agentDir ++ ["checkpoints"]) ++ [a, "checkpoint.json"]) with _ | d
      · rw [hcase] at hc
        exact absurd hc (by simp)
      · rw [hcase] at hc
        cases d with
        | text s => simp at hc
        | sess st => simp at hc
        | ckpt c' =>
          simp only [Option.some.injEq] at hc
          subst hc
          have hkey := mem_keys_of_lookupFS_some hcase
          have hpre : (agentDir ++ ["checkpoints"]) <+:
              (agentDir ++ ["checkpoints"]) ++ [a, "checkpoint.json"] :=
            List.prefix_append _ _
          obtain ⟨pr, hpr, hpre2⟩ := hkeysK _ hkey hpre
          have ha : a = pr.1 := by
            refine hprefixMeta pr.1 a ?_ |>.symm
            rw [← hkeynorm]
            exact hpre2
          refine ⟨pr, hpr, ha, ?_⟩
          have := hmetaK pr hpr
          rw [← hkeynorm, ← ha, hcase] at this
          exact FileData.ckpt.inj (Option.some.inj this)
    have hnm : ∀ a, a ∈ childNames g (agentDir ++ ["checkpoints"]) ↔
        a ∈ kept.map Prod.fst := by
      intro a
      rw [mem_childNames]
      constructor
      · rintro ⟨p, hp, hpre, hhd⟩
        obtain ⟨pr, hpr, hpre2⟩ := hkeysK p hp hpre
        have h2 : ((agentDir ++ ["checkpoints"]) ++ [a]) <+: p :=
          append_singleton_prefix_of_head_drop hpre hhd
        have h1 : ((agentDir ++ ["checkpoints"]) ++ [pr.1]) <+: p := by
          simpa using hpre2
        have : a = pr.1 := append_singleton_prefix_inj h2 h1
        exact this ▸ List.mem_map_of_mem Prod.fst hpr
      · intro ha
        obtain ⟨pr, hpr, rfl⟩ := List.mem_map.mp ha
        have hlook := hmetaK pr hpr
        rw [← hkeynorm] at hlook
        refine ⟨_, mem_keys_of_lookupFS_some hlook, List.prefix_append _ _, ?_⟩
        rw [List.drop_left]
        rfl
    have hinfosMem : ∀ c,
        c ∈ (childNames g (agentDir ++ ["checkpoints"])).filterMap
          (parseCk g (agentDir ++ ["checkpoints"])) ↔ c ∈ kept.map F := by
      intro c
      rw [List.mem_filterMap]
      constructor
      · rintro ⟨a, _, hpa⟩
        obtain ⟨pr, hpr, _, rfl⟩ := hparseId a c hpa
        exact List.mem_map_of_mem F hpr
      · intro hc
        obtain ⟨pr, hpr, rfl⟩ := List.mem_map.mp hc
        exact ⟨pr.1, (hnm pr.1).mpr (List.mem_map_of_mem _ hpr),
          hparse pr hpr⟩
    have hinfosNodup :
        ((childNames g (agentDir ++ ["checkpoints"])).filterMap
          (parseCk g (agentDir ++ ["checkpoints"]))).Nodup := by
      refine List.Nodup.filterMap ?_ (childNames_nodup g _)
      intro a a' c hc hc'
      obtain ⟨pr, hpr, ha, hcp⟩ := hparseId a c (Option.mem_def.mp hc)
      obtain ⟨pr', hpr', ha', hcp'⟩ := hparseId a' c (Option.mem_def.mp hc')
      have e1 : (F pr).id = pr.1 := (hF pr (hsub pr hpr)).1
      have e2 : (F pr').id = pr'.1 := (hF pr' (hsub pr' hpr')).1
      rw [ha, ← e1, ← hcp, hcp', e2, ← ha']
    have hkeptF : (kept.map F).Nodup := by
      have hmapid : (kept.map F).map (fun c => c.id) = kept.map Prod.fst := by
        rw [List.map_map]
        exact List.map_congr_left fun pr hpr => (hF pr (hsub pr hpr)).1
      exact List.Nodup.of_map _ (hmapid ▸ hknodup)
    have hperm :
        ((childNames g (agentDir ++ ["checkpoints"])).filterMap
          (parseCk g (agentDir ++ ["checkpoints"]))).Perm
          ((kept.map F).reverse) := by
      rw [List.perm_ext_iff_of_nodup hinfosNodup (List.nodup_reverse.mpr hkeptF)]
      intro c
      rw [List.mem_reverse]
      exact hinfosMem c
    have hLDsorted : ((kept.map F).reverse).Pairwise
        (fun a b => b.created_at < a.created_at) := by
      rw [List.pairwise_reverse, List.pairwise_map]
      have h2 : kept.Pairwise (fun pr pr' => pr.2 < pr'.2) :=
        List.pairwise_map.mp hktimes
      refine h2.imp_of_mem ?_
      intro pr pr' hpr hpr' hlt
      rw [(hF pr (hsub pr hpr)).2.1, (hF pr' (hsub pr' hpr')).2.1]
      exact hlt
    simpa only [listCheckpoints] using sorted_desc_eq hperm hLDsorted
  -- The listing before the cleanup.
  have hkeysN : ∀ p ∈ fsN.map Prod.fst, (agentDir ++ ["checkpoints"]) <+: p →
      ∃ pr ∈ specs, (agentDir ++ ["checkpoints", pr.1]) <+: p := by
    intro p hp hpre
    rcases mC p hp with h | h
    · exact h
    · exact absurd hpre (hfresh p h)
  have hlistN : listCheckpoints agentDir fsN = (specs.map F).reverse :=
    phase specs fsN hids htimes (fun _ h => h)
      (fun pr hpr => (hF pr hpr).2.2) hkeysN
  have hlenN : (listCheckpoints agentDir fsN).length = specs.length := by
    rw [hlistN]
    simp
  by_cases hkeep : (listCheckpoints agentDir fsN).length ≤ keepCount
  · -- Nothing is pruned; then k = 0 and the whole creation order is kept.
    have hk0 : k = 0 := by
      rw [hlenN, hlen] at hkeep
      omega
    have hclean : cleanOldCheckpoints agentDir keepCount fsN = fsN := by
      simp only [cleanOldCheckpoints]
      rw [if_pos hkeep]
    subst hk0
    constructor
    · rw [hclean, hlistN, List.drop_zero, ← List.map_reverse, ← List.map_reverse,
        List.map_map]
      exact List.map_congr_left fun pr hpr =>
        (hF pr (List.mem_reverse.mp hpr)).1
    · intro pr hpr
      simp at hpr
  · -- The fold branch prunes the oldest k checkpoints.
    have hclean : cleanOldCheckpoints agentDir keepCount fsN
        = deleteCkDirs agentDir
            ((listCheckpoints agentDir fsN).drop keepCount) fsN := by
      simp only [cleanOldCheckpoints]
      rw [if_neg hkeep]
    have htoDel : (listCheckpoints agentDir fsN).drop keepCount
        = ((specs.take k).map F).reverse := by
      rw [hlistN, List.drop_reverse, List.length_map, hlen,
        Nat.add_sub_cancel_left, List.map_take]
    have hdisjTakeDrop : ∀ pr ∈ specs.take k, ∀ pr' ∈ specs.drop k,
        pr.1 ≠ pr'.1 := by
      intro pr hpr pr' hpr' hEq
      have h1 : pr.1 ∈ (specs.take k).map Prod.fst :=
        List.mem_map_of_mem Prod.fst hpr
      have h2 : pr'.1 ∈ (specs.drop k).map Prod.fst :=
        List.mem_map_of_mem Prod.fst hpr'
      have hsplit : (specs.take k).map Prod.fst ++ (specs.drop k).map Prod.fst
          = specs.map Prod.fst := by
        rw [← List.map_append, List.take_append_drop]
      rw [← hsplit] at hids
      exact (List.nodup_append.mp hids).2.2 h1 (hEq ▸ h2)
    have hkill : ∀ pr ∈ specs.take k, ∀ p : Path,
        (agentDir ++ ["checkpoints", pr.1]) <+: p →
        lookupFS (deleteCkDirs agentDir
          ((listCheckpoints agentDir fsN).drop keepCount) fsN) p = none := by
      intro pr hpr p hpre
      refine deleteCkDirs_kill ⟨F pr, ?_, ?_⟩
      · rw [htoDel, List.mem_reverse]
        exact List.mem_map_of_mem F hpr
      · rw [(hF pr (List.mem_of_mem_take hpr)).1]
        exact hpre
    rw [hclean]
    constructor
    · -- The listing after the cleanup: apply `phase` to the kept suffix.
      have hkeptNodup : ((specs.drop k).map Prod.fst).Nodup := by
        rw [List.map_drop]
        exact List.Nodup.sublist (List.drop_sublist _ _) hids
      have hkeptTimes : ((specs.drop k).map Prod.snd).Pairwise (· < ·) := by
        rw [List.map_drop]
        exact List.Pairwise.sublist (List.drop_sublist _ _) htimes
      have hmetaK : ∀ pr ∈ specs.drop k,
          lookupFS (deleteCkDirs agentDir
            ((listCheckpoints agentDir fsN).drop keepCount) fsN)
            (agentDir ++ ["checkpoints", pr.1, "checkpoint.json"])
            = some (.ckpt (F pr)) := by
        intro pr hpr
        rw [deleteCkDirs_frame ?frameh]
        · exact (hF pr (List.mem_of_mem_drop hpr)).2.2
        case frameh =>
          intro c hc hpre
          rw [htoDel, List.mem_reverse] at hc
          obtain ⟨pr', hpr', rfl⟩ := List.mem_map.mp hc
          rw [(hF pr' (List.mem_of_mem_take hpr')).1] at hpre
          exact hdisjTakeDrop pr' hpr' pr hpr (hprefixMeta pr'.1 pr.1 hpre)
      have hkeysK : ∀ p ∈ (deleteCkDirs agentDir
          ((listCheckpoints agentDir fsN).drop keepCount) fsN).map Prod.fst,
          (agentDir ++ ["checkpoints"]) <+: p →
          ∃ pr ∈ specs.drop k, (agentDir ++ ["checkpoints", pr.1]) <+: p := by
        intro p hp hpre
        obtain ⟨pr, hpr, hpre2⟩ := hkeysN p (deleteCkDirs_keys_subset hp) hpre
        have hsplitMem : pr ∈ specs.take k ++ specs.drop k := by
          rw [List.take_append_drop]
          exact hpr
        rcases List.mem_append.mp hsplitMem with h | h
        · exfalso
          have hnone := hkill pr h p hpre2
          have hsome := lookupFS_isSome_of_mem_keys _ p hp
          rw [hnone] at hsome
          simp at hsome
        · exact ⟨pr, h, hpre2⟩
      have hlist' := phase (specs.drop k) _ hkeptNodup hkeptTimes
        (fun pr hpr => List.mem_of_mem_drop hpr) hmetaK hkeysK
      rw [hlist', ← List.map_reverse, ← List.map_reverse, List.map_map]
      exact List.map_congr_left fun pr hpr =>
        (hF pr (List.mem_of_mem_drop (List.mem_reverse.mp hpr))).1
    · exact hkill

/-- Concrete creation sequence for the C6 witness: three checkpoints,
distinct ids, strictly increasing instants. -/
def c6specs : List (String × Nat) := [("c1", 1), ("c2", 2), ("c3", 3)]

/-- Project tree for the C6 witness. -/
def c6fs0 : FS := [(["p", "src", "app.ts"], .text "v0")]

/-- The filesystem after creating the three checkpoints and keeping the two
most recent. -/
def c6cleaned : FS :=
  cleanOldCheckpoints ["a"] 2
    (createMany (fun _ => "h") (fun _ => 0) ["a"] ["p"] "d" c6specs c6fs0)

/-- C6 witness: after creating `2 + 1` checkpoints and cleaning with
`keepCount = 2`, the listing is exactly `[c3, c2]` (the two most recent,
newest first) and the pruned checkpoint's metadata file is gone. -/
theorem c6_cleanup_retention_witness :
    (listCheckpoints ["a"] c6cleaned).map (fun c => c.id) = ["c3", "c2"]
    ∧ lookupFS c6cleaned ["a", "checkpoints", "c1", "checkpoint.json"]
      = none := by
  have h := c6_cleanup_retention (fun _ => "h") (fun _ => 0) ["a"] ["p"] "d"
    c6specs c6fs0 2 1 (by decide) (by decide) (by decide) (by decide)
    (by decide) (by decide)
  have h2 := h.2 ("c1", 1) (by decide)
    ["a", "checkpoints", "c1", "checkpoint.json"] (by decide)
  exact ⟨by simpa [c6cleaned] using h.1, by simpa [c6cleaned] using h2⟩

end Monty
